import Mathlib

set_option maxRecDepth 100000

/-!
Verification of the FarsiHub scraping scripts against their specification.

The development shallowly embeds the Python code of the repository:

* `generate_stable_id` / `generate_id` (deterministic surrogate ids,
  `test_id_generation.py`, `farsiplex_scraper_dooplay.py`,
  `Development Kit/scripts/imvbox_scraper_async.py`), together with a
  byte-level model of `hashlib.md5`;
* the Namakadeh master scraper (`namakadeh_master_scraper.py`):
  checkpoint records, `analyze_checkpoint_status`, `scrape_show_details`,
  `extract_missing_urls_for_show`, the merge loop of `run_complete_scrape`,
  `verify_series_completeness` and `save_checkpoint_safe`;
* the IMVBox async scraper: `fetch_url` and the year extraction of
  `parse_movie_details`;
* the FarsiPlex DooPlay scraper: `_extract_episode_data`.

Python integers are modelled as `Nat` (all integers involved are
non-negative), Python strings as Lean `String`, byte strings as `List Nat`
with every byte below 256, dictionaries with possibly missing keys as
structures with `Option` fields, and fallible operations as `Option`.
-/

/-! ## Byte-level model of `hashlib.md5` (RFC 1321)

`hashlib.md5` is the MD5 function of RFC 1321; the scrapers call it on the
UTF-8 encoding of a slug.  Machine words are `Nat` reduced modulo `2 ^ 32`.
-/

/-- 32-bit truncating addition. -/
def add32 (a b : Nat) : Nat := (a + b) % 2 ^ 32

/-- 32-bit bitwise complement (for arguments below `2 ^ 32`). -/
def not32 (a : Nat) : Nat := a ^^^ (2 ^ 32 - 1)

/-- 32-bit left rotation by `s` (for `x` below `2 ^ 32`, `0 ≤ s ≤ 32`). -/
def rotl32 (x s : Nat) : Nat := ((x <<< s) ||| (x >>> (32 - s))) % 2 ^ 32

/-- The MD5 sine-derived round constants `K[0..63]`. -/
def md5K : List Nat :=
  [0xd76aa478, 0xe8c7b756, 0x242070db, 0xc1bdceee,
   0xf57c0faf, 0x4787c62a, 0xa8304613, 0xfd469501,
   0x698098d8, 0x8b44f7af, 0xffff5bb1, 0x895cd7be,
   0x6b901122, 0xfd987193, 0xa679438e, 0x49b40821,
   0xf61e2562, 0xc040b340, 0x265e5a51, 0xe9b6c7aa,
   0xd62f105d, 0x02441453, 0xd8a1e681, 0xe7d3fbc8,
   0x21e1cde6, 0xc33707d6, 0xf4d50d87, 0x455a14ed,
   0xa9e3e905, 0xfcefa3f8, 0x676f02d9, 0x8d2a4c8a,
   0xfffa3942, 0x8771f681, 0x6d9d6122, 0xfde5380c,
   0xa4beea44, 0x4bdecfa9, 0xf6bb4b60, 0xbebfbc70,
   0x289b7ec6, 0xeaa127fa, 0xd4ef3085, 0x04881d05,
   0xd9d4d039, 0xe6db99e5, 0x1fa27cf8, 0xc4ac5665,
   0xf4292244, 0x432aff97, 0xab9423a7, 0xfc93a039,
   0x655b59c3, 0x8f0ccc92, 0xffeff47d, 0x85845dd1,
   0x6fa87e4f, 0xfe2ce6e0, 0xa3014314, 0x4e0811a1,
   0xf7537e82, 0xbd3af235, 0x2ad7d2bb, 0xeb86d391]

/-- The MD5 per-round left-rotation amounts `S[0..63]`. -/
def md5S : List Nat :=
  [7, 12, 17, 22, 7, 12, 17, 22, 7, 12, 17, 22, 7, 12, 17, 22,
   5, 9, 14, 20, 5, 9, 14, 20, 5, 9, 14, 20, 5, 9, 14, 20,
   4, 11, 16, 23, 4, 11, 16, 23, 4, 11, 16, 23, 4, 11, 16, 23,
   6, 10, 15, 21, 6, 10, 15, 21, 6, 10, 15, 21, 6, 10, 15, 21]

/-- Little-endian byte expansion, `n` bytes of `x`. -/
def leBytes (n x : Nat) : List Nat :=
  (List.range n).map fun i => (x >>> (8 * i)) % 256

/-- MD5 padding: append `0x80`, zero bytes up to 56 mod 64, then the
original length in bits as 8 little-endian bytes. -/
def md5Pad (msg : List Nat) : List Nat :=
  let l := msg.length
  let zeros := (64 + 56 - (l + 1) % 64) % 64
  msg ++ [0x80] ++ List.replicate zeros 0 ++ leBytes 8 ((8 * l) % 2 ^ 64)

/-- Split a byte list into 64-byte chunks (fuel-indexed so that it reduces
definitionally; `fuel = l.length` always suffices). -/
def chunks64Go : Nat → List Nat → List (List Nat)
  | 0, _ => []
  | _, [] => []
  | fuel + 1, l => l.take 64 :: chunks64Go fuel (l.drop 64)

/-- Split a byte list into 64-byte chunks. -/
def chunks64 (l : List Nat) : List (List Nat) := chunks64Go l.length l

/-- The `j`-th little-endian 32-bit word of a 64-byte chunk. -/
def chunkWord (chunk : List Nat) (j : Nat) : Nat :=
  chunk.getD (4 * j) 0 + 256 * chunk.getD (4 * j + 1) 0 +
    65536 * chunk.getD (4 * j + 2) 0 + 16777216 * chunk.getD (4 * j + 3) 0

/-- One MD5 round: state `(a, b, c, d)`, round index `i`. -/
def md5Round (chunk : List Nat) (st : Nat × Nat × Nat × Nat) (i : Nat) :
    Nat × Nat × Nat × Nat :=
  let (a, b, c, d) := st
  let fg : Nat × Nat :=
    if i < 16 then ((b &&& c) ||| (not32 b &&& d), i)
    else if i < 32 then ((d &&& b) ||| (not32 d &&& c), (5 * i + 1) % 16)
    else if i < 48 then (b ^^^ c ^^^ d, (3 * i + 5) % 16)
    else (c ^^^ (b ||| not32 d), (7 * i) % 16)
  let t := add32 (add32 (add32 a fg.1) (md5K.getD i 0)) (chunkWord chunk fg.2)
  (d, add32 b (rotl32 t (md5S.getD i 0)), b, c)

/-- Process one 64-byte chunk, updating the running MD5 state. -/
def md5Chunk (st : Nat × Nat × Nat × Nat) (chunk : List Nat) :
    Nat × Nat × Nat × Nat :=
  let r := (List.range 64).foldl (md5Round chunk) st
  (add32 st.1 r.1, add32 st.2.1 r.2.1, add32 st.2.2.1 r.2.2.1,
   add32 st.2.2.2 r.2.2.2)

/-- MD5 digest of a byte string, as the list of its 16 digest bytes. -/
def md5 (msg : List Nat) : List Nat :=
  let st := (chunks64 (md5Pad msg)).foldl md5Chunk
    (0x67452301, 0xefcdab89, 0x98badcfe, 0x10325476)
  leBytes 4 st.1 ++ leBytes 4 st.2.1 ++ leBytes 4 st.2.2.1 ++ leBytes 4 st.2.2.2

/-- UTF-8 encoding of one Unicode scalar value (`str.encode` encodes each
character of a Python string this way). -/
def utf8Char (c : Nat) : List Nat :=
  if c < 0x80 then [c]
  else if c < 0x800 then
    [0xc0 ||| (c >>> 6), 0x80 ||| (c &&& 0x3f)]
  else if c < 0x10000 then
    [0xe0 ||| (c >>> 12), 0x80 ||| ((c >>> 6) &&& 0x3f), 0x80 ||| (c &&& 0x3f)]
  else
    [0xf0 ||| (c >>> 18), 0x80 ||| ((c >>> 12) &&& 0x3f),
     0x80 ||| ((c >>> 6) &&& 0x3f), 0x80 ||| (c &&& 0x3f)]

/-- UTF-8 encoding of a string (`slug.encode("utf-8")`). -/
def utf8Encode (s : String) : List Nat :=
  s.data.foldr (fun c acc => utf8Char c.toNat ++ acc) []

/-- The lowercase hex digit character for a value below 16, as produced by
`hexdigest()`: `0-9` then `a-f`. -/
def hexDigitChar (n : Nat) : Char :=
  Char.ofNat (if n < 10 then 48 + n else 87 + n)

/-- `hashlib`'s `hexdigest()`: two lowercase hex characters per digest byte. -/
def hexdigest (bytes : List Nat) : String :=
  String.mk (bytes.foldr (fun b acc => hexDigitChar (b / 16) :: hexDigitChar (b % 16) :: acc) [])

/-- Value of one hexadecimal digit character, as accepted by `int(s, 16)`:
decimal digits, then `a-f` and `A-F`. -/
def hexCharVal (c : Char) : Option Nat :=
  if 48 ≤ c.toNat ∧ c.toNat ≤ 57 then some (c.toNat - 48)
  else if 97 ≤ c.toNat ∧ c.toNat ≤ 102 then some (c.toNat - 87)
  else if 65 ≤ c.toNat ∧ c.toNat ≤ 70 then some (c.toNat - 55)
  else none

/-- Python `int(s, 16)` on digit-only inputs: `none` models the
`ValueError` raised on an empty string or a non-hex character. -/
def intOfHex (s : String) : Option Nat :=
  if s.data = [] then none
  else s.data.foldl (fun acc c => acc.bind fun a => (hexCharVal c).map fun v => 16 * a + v)
    (some 0)

/-- `generate_stable_id` of `test_id_generation.py` and
`FarsiPlexDooPlayScraper.generate_stable_id`:
`int(hashlib.md5(slug.encode("utf-8")).hexdigest(), 16) % (10 ** 8)`.
It reads no process state, so its translation is a pure function of the
slug; `none` would model a `ValueError` from `int`, which is proved
impossible. -/
def generate_stable_id (slug : String) : Option Nat :=
  (intOfHex (hexdigest (md5 (utf8Encode slug)))).map (· % 10 ^ 8)

/-- `generate_id` of `imvbox_scraper_async.py`:
`int(hashlib.md5(f"{prefix}:{slug}".encode()).hexdigest()[:8], 16)`. -/
def generate_id (pfx slug : String) : Option Nat :=
  intOfHex (String.mk ((hexdigest (md5 (utf8Encode (pfx ++ ":" ++ slug)))).data.take 8))

/-- Big-endian integer value of a byte list; `int(h, 16)` applied to the
hex digest of `bytes` yields exactly this number. -/
def bytesToNatBE (bytes : List Nat) : Nat :=
  bytes.foldl (fun acc b => 256 * acc + b) 0

/-! ## The Namakadeh master scraper (`namakadeh_master_scraper.py`)

Checkpoint state is a JSON document with `shows` and `episodes` arrays.
Python dictionaries whose keys may be absent are modelled as structures
with `Option` fields; Python truthiness of a possibly-missing string field
(`not e.get("video_url")`) is `truthy` below (`none` for a missing key,
`some ""` for an empty string, both falsy).

The scraper drives a Selenium browser; all page content reachable from a
URL is abstracted into a `Site` value: `grid url` is the list of `li`
items of `ul#gridMason2` on the page at `url` (or `none` when that element
is missing), `viewCountOf url` is the result of the view-count extraction
on that page (the code defaults it to 0 when unparseable), and
`videoUrlOf contentType url` is the result of `extract_video_url` (which
returns `""` on every failure path).  A `Site` is a fixed function of the
URL: this is exactly the "unchanged source of pages" premise of the
idempotence property.  `should_stop` is modelled as never set (no
interruption) and the interactive confirmation as answered `yes`; the
worker pool completing out of order is modelled by the deterministic
submission order, which is one admissible completion order. -/

/-- Python truthiness of a possibly-absent string value. -/
def truthy : Option String → Bool
  | none => false
  | some s => !(s == "")

/-- One `shows` array entry (movie or series). -/
structure ShowRecord where
  id : String
  type : String
  url : String
  videoUrl : Option String := none
  viewCount : Option Nat := none
  totalEpisodes : Option Nat := none
  deriving DecidableEq, Repr

/-- One `episodes` array entry, as built by `scrape_show_details` /
`verify_and_scrape_series`. -/
structure EpisodeRecord where
  id : String
  showId : String
  episodeNumber : Nat
  slug : String
  url : String
  thumbnail : String
  videoUrl : Option String := none
  deriving DecidableEq, Repr

/-- The checkpoint JSON document. -/
structure Checkpoint where
  shows : List ShowRecord
  episodes : List EpisodeRecord
  phase : String
  deriving DecidableEq, Repr

/-- One `li` item of the episode grid `ul#gridMason2`. -/
structure PageItem where
  href : Option String := none
  imgSrc : Option String := none
  deriving DecidableEq, Repr

/-- The fixed source of pages (see the section comment). -/
structure Site where
  grid : String → Option (List PageItem)
  viewCountOf : String → Nat
  videoUrlOf : String → String → String

def BASE_URL : String := "https://namakade.com"

/-- `url if url.startswith("http") else BASE_URL + url`. -/
def resolveUrl (u : String) : String :=
  if u.data.take 4 = ['h', 't', 't', 'p'] then u else BASE_URL ++ u

/-- `extract_video_url(driver, page_url, content_type)`: resolves the URL
against `BASE_URL` and runs the (site-determined) extraction; every failure
path of the source returns `""`. -/
def extract_video_url (site : Site) (contentType pageUrl : String) : String :=
  site.videoUrlOf contentType (resolveUrl pageUrl)

/-- `f"{show['id']}_ep{idx}"`. -/
def epId (showId : String) (idx : Nat) : String :=
  showId ++ "_ep" ++ toString idx

/-- `episode_url.split("/")[-1]`. -/
def lastSegment (s : String) : String :=
  (s.split (fun c => c = '/')).getLastD ""

/-- Python `enumerate(items, 1)`. -/
def enumFrom {α : Type} (n : Nat) : List α → List (Nat × α)
  | [] => []
  | x :: xs => (n, x) :: enumFrom (n + 1) xs

/-- The episode records built by the series branch of
`scrape_show_details`: items are enumerated from 1, items without a link
`href` are skipped, and each kept item becomes a record with id
`f"{show_id}_ep{idx}"` and the video URL extracted from its episode page. -/
def buildEpisodes (site : Site) (showId : String) (items : List PageItem) :
    List EpisodeRecord :=
  (enumFrom 1 items).filterMap fun p =>
    match p.2.href with
    | none => none
    | some href =>
      some { id := epId showId p.1, showId := showId, episodeNumber := p.1,
             slug := lastSegment href, url := href,
             thumbnail := p.2.imgSrc.getD "",
             videoUrl := some (extract_video_url site "series" href) }

/-- `scrape_show_details(driver, show, worker_id)` (success path): sets
`view_count`, for movies sets `video_url`, for series builds the episode
list from the grid of the show page. -/
def scrape_show_details (site : Site) (s : ShowRecord) :
    ShowRecord × List EpisodeRecord :=
  let fullUrl := resolveUrl s.url
  let s1 := { s with viewCount := some (site.viewCountOf fullUrl) }
  let s2 := if s1.type = "movie"
    then { s1 with videoUrl := some (extract_video_url site "movie" s1.url) }
    else s1
  let eps := if s2.type = "series" then
      match site.grid fullUrl with
      | none => []
      | some items => buildEpisodes site s2.id items
    else []
  (s2, eps)

/-- `extract_missing_urls_for_show` (success path): every episode whose
`video_url` is falsy gets it set to the extraction result; all episodes of
the show are returned. -/
def extract_missing_urls_for_show (site : Site) (episodes : List EpisodeRecord) :
    List EpisodeRecord :=
  episodes.map fun e =>
    if truthy e.videoUrl then e
    else { e with videoUrl := some (extract_video_url site "series" e.url) }

/-- The episodes of one show: `eps_by_show[show_id]` after the grouping
loop of `analyze_checkpoint_status`. -/
def epsOfShow (episodes : List EpisodeRecord) (sid : String) : List EpisodeRecord :=
  episodes.filter fun e => e.showId = sid

/-- The fields of the `analyze_checkpoint_status` result that the
workflows consume. -/
structure Analysis where
  episodesMissingUrls : List EpisodeRecord
  moviesMissingUrls : List ShowRecord
  seriesWithoutEpisodes : List ShowRecord
  seriesWithMissingUrls : List (String × List EpisodeRecord)
  deriving Repr

/-- `analyze_checkpoint_status(checkpoint)`: pure gap analysis of the
checkpoint.  `series_without_episodes` keeps the series whose id is not a
key of `eps_by_show`, i.e. with no episode grouped under it;
`series_with_missing_urls` keeps, for every series with at least one
episode and at least one episode with a falsy `video_url`, the pair of its
id and its grouped episode list. -/
def analyze_checkpoint_status (c : Checkpoint) : Analysis :=
  let series := c.shows.filter fun s => s.type = "series"
  let movies := c.shows.filter fun s => s.type = "movie"
  { episodesMissingUrls := c.episodes.filter fun e => !truthy e.videoUrl,
    moviesMissingUrls := movies.filter fun m => !truthy m.videoUrl,
    seriesWithoutEpisodes := series.filter fun s => epsOfShow c.episodes s.id == [],
    seriesWithMissingUrls :=
      (series.filter fun s =>
          !(epsOfShow c.episodes s.id == []) &&
            (epsOfShow c.episodes s.id).any fun e => !truthy e.videoUrl).map
        fun s => (s.id, epsOfShow c.episodes s.id) }

/-- The show-replacement loop of the merge in `run_complete_scrape`:
replace the first show whose id matches the task identifier. -/
def replaceFirstShow (shows : List ShowRecord) (sid : String) (new : ShowRecord) :
    List ShowRecord :=
  match shows with
  | [] => []
  | s :: rest => if s.id = sid then new :: rest else s :: replaceFirstShow rest sid new

/-- The episode-update loop of the extract-mode merge: replace the first
episode whose id matches. -/
def replaceFirstEp (eps : List EpisodeRecord) (new : EpisodeRecord) :
    List EpisodeRecord :=
  match eps with
  | [] => []
  | e :: rest => if e.id = new.id then new :: rest else e :: replaceFirstEp rest new

/-- One iteration of the scrape-mode episode merge loop: if the id is
already in `existing_episode_ids` the first record with that id is
replaced, otherwise the episode is appended and its id added to the set. -/
def upsertStep (acc : List EpisodeRecord × List String) (ne : EpisodeRecord) :
    List EpisodeRecord × List String :=
  if ne.id ∈ acc.2 then (replaceFirstEp acc.1 ne, acc.2)
  else (acc.1 ++ [ne], ne.id :: acc.2)

/-- The scrape-mode episode merge of `run_complete_scrape`: an id-keyed
upsert.  The id set `existing_episode_ids` is computed once from the
accumulator, then each scraped episode is folded in with `upsertStep`. -/
def upsertEpisodes (eps newEps : List EpisodeRecord) : List EpisodeRecord :=
  (newEps.foldl upsertStep (eps, eps.map fun e => e.id)).1

/-- One scrape-mode merge step: replace the show keyed by the submission
identifier, upsert the scraped episodes. -/
def mergeScrapeResult (acc : List ShowRecord × List EpisodeRecord) (sid : String)
    (res : ShowRecord × List EpisodeRecord) : List ShowRecord × List EpisodeRecord :=
  (replaceFirstShow acc.1 sid res.1, upsertEpisodes acc.2 res.2)

/-- `run_complete_scrape(checkpoint, ...)` on an uninterrupted run: the
task list is derived from one `analyze_checkpoint_status` snapshot
(movies missing URLs and series without episodes are scraped, series with
missing episode URLs get URL extraction), each result is merged under the
checkpoint lock, and the final state has `phase = "complete"`. -/
def run_complete_scrape (site : Site) (c : Checkpoint) : Checkpoint :=
  let st := analyze_checkpoint_status c
  let scrapeTasks := st.moviesMissingUrls ++ st.seriesWithoutEpisodes
  let acc1 := scrapeTasks.foldl
    (fun acc s => mergeScrapeResult acc s.id (scrape_show_details site s))
    (c.shows, c.episodes)
  let eps2 := st.seriesWithMissingUrls.foldl
    (fun eps t => (extract_missing_urls_for_show site t.2).foldl replaceFirstEp eps)
    acc1.2
  { shows := acc1.1, episodes := eps2, phase := "complete" }

/-! ### The verification workflow (`verify_series_completeness`) -/

/-- The candidate filter of `verify_series_completeness`: a series is
verified only when it has at least one recorded episode, strictly fewer
than the catalog-stated `total_episodes` (`.get` default 0), and the
shortfall is at most 20. -/
def series_to_verify (c : Checkpoint) : List ShowRecord :=
  (c.shows.filter fun s => s.type = "series").filter fun s =>
    let actual := (epsOfShow c.episodes s.id).length
    let expected := s.totalEpisodes.getD 0
    decide (0 < actual) && decide (actual < expected) && decide (expected - actual ≤ 20)

/-- `verify_and_scrape_series` (success path): if the website grid has no
more items than there are recorded episodes, nothing is returned;
otherwise every grid item whose link URL is not among the existing episode
URLs becomes a new record whose id is `f"{show_id}_ep{idx}"` with `idx`
the position of the item in the grid. -/
def verify_new_episodes (site : Site) (s : ShowRecord) (existing : List EpisodeRecord) :
    List EpisodeRecord :=
  match site.grid (resolveUrl s.url) with
  | none => []
  | some items =>
    if items.length ≤ existing.length then []
    else
      let existingUrls := existing.map fun e => e.url
      (enumFrom 1 items).filterMap fun p =>
        match p.2.href with
        | none => none
        | some href =>
          if href ∈ existingUrls then none
          else
            some { id := epId s.id p.1, showId := s.id, episodeNumber := p.1,
                   slug := lastSegment href, url := href,
                   thumbnail := p.2.imgSrc.getD "",
                   videoUrl := some (extract_video_url site "series" href) }

/-- The merge loop of `verify_series_completeness`: each result is
appended to the episode list with `episodes.extend(result["new_episodes"])`
— no id-keyed check. -/
def verify_series_completeness (site : Site) (c : Checkpoint) : Checkpoint :=
  let tasks := series_to_verify c
  let eps := tasks.foldl
    (fun eps s => eps ++ verify_new_episodes site s (epsOfShow c.episodes s.id))
    c.episodes
  { c with episodes := eps }

def c2ExEpisode : EpisodeRecord :=
  { id := "show1_ep2", showId := "show1", episodeNumber := 2, slug := "a",
    url := "/a", thumbnail := "", videoUrl := some "v" }

def c2ExSite : Site :=
  { grid := fun u =>
      if u = "https://namakade.com/series/show1" then
        some [{ href := some "/b" }, { href := some "/c" }]
      else none,
    viewCountOf := fun _ => 0,
    videoUrlOf := fun _ _ => "" }

def c2ExCheckpoint : Checkpoint :=
  { shows := [{ id := "show1", type := "series", url := "/series/show1",
                totalEpisodes := some 3 }],
    episodes := [c2ExEpisode],
    phase := "detail_scraping" }

/-! ## The IMVBox async scraper: `fetch_url` (C7)

`fetch_url` performs one `session.get` inside `try ... except Exception:
return None`.  One call is abstracted by what the attempt produced: a
response with a status and a body text, or an exception (timeout,
connection error, cancelled read, ...) raised anywhere in the protected
block.  The semaphore and the `stats` counter do not affect the returned
value. -/

inductive HttpAttempt where
  | response (status : Nat) (body : String)
  | excRaised
  deriving DecidableEq, Repr

/-- `fetch_url`: `None` on status 404, `None` on any other non-200 status,
the body text on 200, and `None` when the attempt raised (the
`except Exception` arm).  The translation is total: no exception escapes. -/
def fetch_url : HttpAttempt → Option String
  | .response status body =>
      if status = 404 then none
      else if status ≠ 200 then none
      else some body
  | .excRaised => none

/-! ## `save_checkpoint_safe` (C8)

The function body is `with checkpoint_lock: try: open/json.dump; return
True; except Exception as e: progress_print(error); return False`.  It is
modelled by its event trace as a function of the outcome of the underlying
file write. -/

inductive WriteOutcome where
  | ok
  | fail (err : String)
  deriving DecidableEq, Repr

inductive SaveEvent where
  | lockAcquire
  | fileWrite
  | logError (msg : String)
  | lockRelease
  deriving DecidableEq, Repr

/-- `save_checkpoint_safe(checkpoint)`: returns the boolean result and the
trace of observable events of one call, as a function of the write
outcome. -/
def save_checkpoint_safe : WriteOutcome → Bool × List SaveEvent
  | .ok => (true, [.lockAcquire, .fileWrite, .lockRelease])
  | .fail e =>
      (false, [.lockAcquire, .fileWrite,
               .logError ("[ERROR] Failed to save checkpoint: " ++ e),
               .lockRelease])

/-! ## The result-processing loop of `run_complete_scrape` (C9)

For the flush schedule only the per-task control flow matters: each
completed future increments `tasks_completed`; when `future.result(...)`
returned (successfully or with `result["success"]` false) the loop then
checks `tasks_completed % 10 == 0` and saves; when `future.result(...)`
raised, the `except` branch increments the counter and prints, with no
save check.  After the loop a final save is performed unconditionally. -/

inductive TaskOutcome where
  | success
  | failed
  | raised
  deriving DecidableEq, Repr

/-- One iteration of the result loop: the running state is
`(tasks_completed, counts at which a checkpoint save happened)`. -/
def processStep (acc : Nat × List Nat) (o : TaskOutcome) : Nat × List Nat :=
  match o with
  | .raised => (acc.1 + 1, acc.2)
  | _ => (acc.1 + 1, if (acc.1 + 1) % 10 = 0 then acc.2 ++ [acc.1 + 1] else acc.2)

/-- The values of `tasks_completed` at which `run_complete_scrape` writes
the checkpoint: the periodic saves of the loop, then the unconditional
final save (at which point `tasks_completed = outcomes.length`). -/
def run_save_counts (outcomes : List TaskOutcome) : List Nat :=
  (outcomes.foldl processStep (0, [])).2 ++ [outcomes.length]

/-! ## Numeric-field parsing (C6)

Two cited parsers matter for unparseable numeric fields:

* `parse_movie_details` (IMVBox): `details["year"]` starts as `None` and is
  set only when `re.search` matches `\b(19\d\d|20\d\d)\s*\|` in the page
  text.
* `FarsiPlexDooPlayScraper._extract_episode_data`: the episode number is
  taken from group 2 of `re.search` for `(\d+)\s*-\s*(\d+)` on the text of
  `div.numerando`; when absent or unmatched (or 0, since `if not
  episode_number` is also true for 0) the code falls back to
  `len(seasons[-1]["episodes"]) + 1`.

The character classes are modelled over their ASCII ranges (the digit
matches these scrapers consume are ASCII); the leftmost-match semantics of
`re.search` is implemented by scanning start positions left to right, and
for these patterns the greedy maximal-munch run at a position is exact
(after a maximal digit run the following character is a non-digit, so no
backtracking alternative can succeed). -/

def isDigitCh (c : Char) : Bool := 48 ≤ c.toNat && c.toNat ≤ 57

def isWordCh (c : Char) : Bool :=
  (65 ≤ c.toNat && c.toNat ≤ 90) || (97 ≤ c.toNat && c.toNat ≤ 122) ||
    isDigitCh c || c = '_'

def isWsCh (c : Char) : Bool :=
  c = ' ' || c = '\t' || c = '\n' || c = '\r' || c.toNat = 11 || c.toNat = 12

/-- `int` of a run of ASCII digit characters. -/
def digitsVal (ds : List Char) : Nat :=
  ds.foldl (fun a c => 10 * a + (c.toNat - 48)) 0

/-- Match `(19\d\d|20\d\d)\s*\|` at the head of the character list,
returning `int(group(1))`. -/
def yearMatchAt (cs : List Char) : Option Nat :=
  match cs with
  | c1 :: c2 :: c3 :: c4 :: rest =>
    if ((c1 = '1' ∧ c2 = '9') ∨ (c1 = '2' ∧ c2 = '0')) ∧
        isDigitCh c3 ∧ isDigitCh c4 then
      if (rest.dropWhile isWsCh).head? = some '|' then
        some ((c1.toNat - 48) * 1000 + (c2.toNat - 48) * 100 +
          (c3.toNat - 48) * 10 + (c4.toNat - 48))
      else none
    else none
  | _ => none

/-- `re.search(r"\b(19\d\d|20\d\d)\s*\|", text)`: scan start positions
left to right; the leading `\b` requires the previous character (if any)
to be a non-word character. -/
def findYearBar (prev : Option Char) : List Char → Option Nat
  | [] => none
  | c :: rest =>
    if (match prev with
        | none => true
        | some p => !isWordCh p) = true then
      match yearMatchAt (c :: rest) with
      | some y => some y
      | none => findYearBar (some c) rest
    else findYearBar (some c) rest

/-- The `details["year"]` field of `parse_movie_details(html)`: `None`
unless the year pattern matches the page text, in which case
`int(match.group(1))`. -/
def imvbox_year (pageText : String) : Option Nat :=
  findYearBar none pageText.data

/-- Match `(\d+)\s*-\s*(\d+)` at the head of the character list, returning
`int(group(2))`. -/
def numPairAt (cs : List Char) : Option Nat :=
  let s1 := cs.span isDigitCh
  if s1.1 = [] then none
  else
    match s1.2.dropWhile isWsCh with
    | '-' :: rest3 =>
      let s2 := (rest3.dropWhile isWsCh).span isDigitCh
      if s2.1 = [] then none else some (digitsVal s2.1)
    | _ => none

/-- `re.search(r"(\d+)\s*-\s*(\d+)", text)`, value of `int(group(2))`. -/
def findNumPair : List Char → Option Nat
  | [] => none
  | c :: rest =>
    match numPairAt (c :: rest) with
    | some v => some v
    | none => findNumPair rest

/-! ### The FarsiPlex episode extractor -/

/-- One episode record built by `_extract_episode_data`. -/
structure FpEpisode where
  episodeNumber : Nat
  title : String
  url : String
  slug : String
  thumbnailUrl : Option String := none
  releaseDate : Option String := none
  deriving DecidableEq, Repr

/-- One entry of `tvshow_data["seasons"]`; only its `episodes` list is
consumed by the fallback (`.get("episodes", [])`, default empty). -/
structure FpSeason where
  episodes : List FpEpisode := []
  deriving DecidableEq, Repr

/-- One `li` of `ul.episodios`, abstracted to the features the extractor
reads: the `/episode/` link `href`, the link text, the text of
`div.numerando` (if present), the image source (`src` or `data-src`), and
the `span.date` text. -/
structure FpItem where
  episodeHref : Option String := none
  linkText : String := ""
  numerandoText : Option String := none
  imgSrc : Option String := none
  dateText : Option String := none
  deriving DecidableEq, Repr

def FP_BASE_URL : String := "https://farsiplex.com"

/-- `urljoin(BASE_URL, href)` for the hrefs this scraper sees (absolute
URLs pass through, path-absolute hrefs are prefixed with the origin). -/
def fpResolveUrl (href : String) : String :=
  if href.data.take 4 = ['h', 't', 't', 'p'] then href else FP_BASE_URL ++ href

/-- `url.rstrip("/")`. -/
def rstripSlash (s : String) : String :=
  String.mk ((s.data.reverse.dropWhile fun c => c = '/').reverse)

/-- `FarsiPlexDooPlayScraper._extract_episode_data(episode_item,
tvshow_data, season_number)`: `None` without an `/episode/` link; the
episode number from group 2 of the numerando pattern, or — when that is
missing, unmatched, or 0 — the fallback `len(seasons[-1]["episodes"]) + 1`.
With an empty seasons list the source executes `continue` at line 655,
which is outside any loop — a `SyntaxError` under CPython; the adjacent
comment says "Skip this episode", modelled as returning `none`. -/
def extract_episode_data (item : FpItem) (seasons : List FpSeason) : Option FpEpisode :=
  match item.episodeHref with
  | none => none
  | some href =>
    let url := fpResolveUrl href
    let slug := lastSegment (rstripSlash url)
    let fallbackNum : Option Nat :=
      match seasons.getLast? with
      | none => none
      | some last => some (last.episodes.length + 1)
    let episodeNumber : Option Nat :=
      match item.numerandoText.bind (fun t => findNumPair t.data) with
      | some n => if n = 0 then fallbackNum else some n
      | none => fallbackNum
    match episodeNumber with
    | none => none
    | some n =>
      some { episodeNumber := n, title := item.linkText.trim, url := url,
             slug := slug, thumbnailUrl := item.imgSrc,
             releaseDate := item.dateText }

def c6ExItem : FpItem :=
  { episodeHref := some "/episode/some-show-1x4/",
    linkText := "Episode Four",
    numerandoText := some "Episode" }

def c6ExLastSeason : FpSeason :=
  { episodes := [
      { episodeNumber := 1, title := "a", url := "u1", slug := "s1" },
      { episodeNumber := 2, title := "b", url := "u2", slug := "s2" },
      { episodeNumber := 3, title := "c", url := "u3", slug := "s3" }] }

def c6ExSeasons : List FpSeason := [c6ExLastSeason]

/-- An episode appended by the scrape phase of one run: it belongs to a
series of the original checkpoint that had no recorded episodes, its id
follows the `f"{show_id}_ep{idx}"` scheme, and its video URL is the
site-determined extraction value for its episode URL. -/
def BuiltEp (site : Site) (c : Checkpoint) (x : EpisodeRecord) : Prop :=
  (∃ s, s ∈ c.shows ∧ s.type = "series" ∧ x.showId = s.id ∧
    epsOfShow c.episodes s.id = [] ∧ ∃ i, x.id = epId s.id i) ∧
  x.videoUrl = some (extract_video_url site "series" x.url)

/-! ### What the URL-extraction fold produces -/

/-- The update `episode["video_url"] = extract_video_url(...)` applied to
one episode record. -/
def updVal (site : Site) (e : EpisodeRecord) : EpisodeRecord :=
  { e with videoUrl := some (extract_video_url site "series" e.url) }

/-! ### The two folds of one full run, and what the analysis selects -/

/-- The scrape task list of one run. -/
def scrapeTaskList (c : Checkpoint) : List ShowRecord :=
  (analyze_checkpoint_status c).moviesMissingUrls ++
    (analyze_checkpoint_status c).seriesWithoutEpisodes

def c5WitSite : Site :=
  { grid := fun u =>
      if u = "https://namakade.com/series/sh1" then
        some [{ href := some "/watch/sh1-e1", imgSrc := some "/thumb/e1.jpg" }]
      else none,
    viewCountOf := fun _ => 7,
    videoUrlOf := fun _ u =>
      if u = "https://namakade.com/watch/sh1-e1" then
        "https://media.negahestan.com/sh1-e1.mp4"
      else "" }

def c5WitCheckpoint : Checkpoint :=
  { shows := [{ id := "sh1", type := "series", url := "/series/sh1" }],
    episodes := [],
    phase := "detail_scraping" }

example : hexdigest (md5 (utf8Encode "")) = "d41d8cd98f00b204e9800998ecf8427e" := by decide

example : hexdigest (md5 (utf8Encode "abc")) = "900150983cd24fb0d6963f7d28e17f72" := by decide

example : hexdigest (md5 (utf8Encode "breaking-bad")) =
    "41726f189bf76e34f9f8f8595fdaa01b" := by decide

example : generate_stable_id "breaking-bad" = some 76963867 := by decide

example : generate_stable_id "" = some 99178366 := by decide

example : utf8Encode "سریال" = [216, 179, 216, 177, 219, 140, 216, 167, 217, 132] := by decide

example : generate_stable_id "سریال" = some 54202301 := by decide

example : generate_id "imvbox_movie" "x" = some 812709417 := by decide

example : generate_id "a" "b" = some 3625323675 := by decide

/-! ### Facts about the digest: every byte is below 256 and there are 16 -/

theorem leBytes_mem_lt (n x : Nat) : ∀ b ∈ leBytes n x, b < 256 := by
  intro b hb
  simp only [leBytes, List.mem_map, List.mem_range] at hb
  obtain ⟨i, -, rfl⟩ := hb
  exact Nat.mod_lt _ (by norm_num)

theorem leBytes_length (n x : Nat) : (leBytes n x).length = n := by
  simp [leBytes]

theorem md5_mem_lt (msg : List Nat) : ∀ b ∈ md5 msg, b < 256 := by
  intro b hb
  simp only [md5, List.mem_append] at hb
  rcases hb with ((h | h) | h) | h <;> exact leBytes_mem_lt _ _ _ h

theorem md5_length (msg : List Nat) : (md5 msg).length = 16 := by
  simp [md5, leBytes_length]

/-! ### `int(hexdigest, 16)` recovers the big-endian value of the digest -/

theorem hexCharVal_hexDigitChar : ∀ n < 16, hexCharVal (hexDigitChar n) = some n := by decide

theorem hexFold (bytes : List Nat) (a : Nat) (h : ∀ b ∈ bytes, b < 256) :
    List.foldl (fun acc c => acc.bind fun x => (hexCharVal c).map fun v => 16 * x + v)
      (some a)
      (bytes.foldr (fun b acc => hexDigitChar (b / 16) :: hexDigitChar (b % 16) :: acc) []) =
    some (bytes.foldl (fun acc b => 256 * acc + b) a) := by
  induction bytes generalizing a with
  | nil => rfl
  | cons b bs ih =>
    have hb : b < 256 := h b (by simp)
    have hdm := Nat.div_add_mod b 16
    have hmlt : b % 16 < 16 := Nat.mod_lt _ (by norm_num)
    have hdlt : b / 16 < 16 := by omega
    have hmem : ∀ x ∈ bs, x < 256 := fun x hx => h x (by simp [hx])
    simp only [List.foldr_cons, List.foldl_cons, hexCharVal_hexDigitChar _ hdlt,
      hexCharVal_hexDigitChar _ hmlt, Option.some_bind, Option.map_some']
    rw [ih _ hmem]
    congr 2
    omega

theorem hexdigest_data (bytes : List Nat) :
    (hexdigest bytes).data =
      bytes.foldr (fun b acc => hexDigitChar (b / 16) :: hexDigitChar (b % 16) :: acc) [] := rfl

theorem intOfHex_hexdigest (bytes : List Nat) (hne : bytes ≠ [])
    (h : ∀ b ∈ bytes, b < 256) :
    intOfHex (hexdigest bytes) = some (bytesToNatBE bytes) := by
  have hdata := hexdigest_data bytes
  obtain ⟨b, bs, rfl⟩ := List.exists_cons_of_ne_nil hne
  simp only [intOfHex, hdata, bytesToNatBE]
  rw [if_neg (by simp)]
  exact hexFold _ 0 h

theorem bytesToNatBE_fold_lt (bytes : List Nat) (a : Nat) (h : ∀ b ∈ bytes, b < 256) :
    bytes.foldl (fun acc b => 256 * acc + b) a < (a + 1) * 256 ^ bytes.length := by
  induction bytes generalizing a with
  | nil => simp
  | cons b bs ih =>
    have hb : b < 256 := h b (by simp)
    have hmem : ∀ x ∈ bs, x < 256 := fun x hx => h x (by simp [hx])
    calc bs.foldl (fun acc b => 256 * acc + b) (256 * a + b)
        < (256 * a + b + 1) * 256 ^ bs.length := ih _ hmem
      _ ≤ ((a + 1) * 256) * 256 ^ bs.length := by
          apply Nat.mul_le_mul_right
          omega
      _ = (a + 1) * 256 ^ (b :: bs).length := by
          rw [List.length_cons, pow_succ]
          ring

theorem hexChars_take (bytes : List Nat) (k : Nat) :
    (bytes.foldr (fun b acc => hexDigitChar (b / 16) :: hexDigitChar (b % 16) :: acc) []).take
        (2 * k) =
      (bytes.take k).foldr
        (fun b acc => hexDigitChar (b / 16) :: hexDigitChar (b % 16) :: acc) [] := by
  induction bytes generalizing k with
  | nil => simp
  | cons b bs ih =>
    cases k with
    | zero => simp
    | succ k =>
      have h2 : 2 * (k + 1) = (2 * k) + 1 + 1 := by omega
      simp only [List.foldr_cons, h2, List.take_succ_cons, List.take_cons]
      rw [ih k]

/-- **C1.** For every slug string `S`, the surrogate-id function
`generate_stable_id` is a pure function of `S` — its translation reads no
process state, so it returns the same integer on every call and in every
process — and its value is exactly
`int(md5(utf8(S)).hexdigest(), 16) mod 10 ^ 8`: the big-endian integer
value of the 16 MD5 digest bytes of the UTF-8 encoding of `S`, reduced
modulo `10 ^ 8`.  In particular the `int` conversion never fails (the
result is never `none`). -/
theorem generate_stable_id_pure_md5_mod (slug : String) :
    generate_stable_id slug =
      some (bytesToNatBE (md5 (utf8Encode slug)) % 10 ^ 8) := by
  have hne : md5 (utf8Encode slug) ≠ [] := by
    intro h
    have := md5_length (utf8Encode slug)
    rw [h] at this
    simp at this
  unfold generate_stable_id
  rw [intOfHex_hexdigest _ hne (md5_mem_lt _)]
  rfl

/-- **C10.** Every generated surrogate id is a natural number (hence never
negative) within SQLite INTEGER range: `generate_stable_id` always returns
a value strictly below `10 ^ 8`, and the IMVBox `generate_id` (which parses
only the first 8 hex digits of the digest) always returns a value strictly
below `2 ^ 32`. -/
theorem generated_ids_bounded :
    (∀ slug : String, ∃ n : Nat, generate_stable_id slug = some n ∧ n < 10 ^ 8) ∧
    (∀ pfx slug : String, ∃ n : Nat, generate_id pfx slug = some n ∧ n < 2 ^ 32) := by
  constructor
  · intro slug
    refine ⟨bytesToNatBE (md5 (utf8Encode slug)) % 10 ^ 8,
      generate_stable_id_pure_md5_mod slug, Nat.mod_lt _ (by norm_num)⟩
  · intro pfx slug
    set bytes := md5 (utf8Encode (pfx ++ ":" ++ slug)) with hbytes
    have hlt : ∀ b ∈ bytes, b < 256 := md5_mem_lt _
    have hlen : bytes.length = 16 := md5_length _
    have htake : ∀ b ∈ bytes.take 4, b < 256 := fun b hb => hlt b (List.take_subset _ _ hb)
    have htlen : (bytes.take 4).length = 4 := by
      rw [List.length_take, hlen]
      norm_num
    have hne : bytes.take 4 ≠ [] := by
      intro h
      rw [h] at htlen
      simp at htlen
    refine ⟨bytesToNatBE (bytes.take 4), ?_, ?_⟩
    · unfold generate_id
      rw [← hbytes]
      have hdata : (String.mk ((hexdigest bytes).data.take 8)).data =
          (bytes.take 4).foldr
            (fun b acc => hexDigitChar (b / 16) :: hexDigitChar (b % 16) :: acc) [] := by
        show (hexdigest bytes).data.take 8 = _
        rw [hexdigest_data, show (8 : Nat) = 2 * 4 by norm_num, hexChars_take]
      obtain ⟨b, bs, hcons⟩ := List.exists_cons_of_ne_nil hne
      unfold intOfHex
      rw [hdata, hcons]
      rw [if_neg (by simp)]
      have hfold := hexFold (b :: bs) 0 (by rw [← hcons]; exact htake)
      simp only [List.foldr_cons] at hfold ⊢
      rw [hfold, ← hcons]
      rfl
    · have := bytesToNatBE_fold_lt (bytes.take 4) 0 htake
      rw [htlen] at this
      simpa [bytesToNatBE] using this

/-! ### Gap analysis and candidate selection (C3, C4) -/

theorem truthy_eq_false_iff (o : Option String) :
    truthy o = false ↔ o = none ∨ o = some "" := by
  cases o with
  | none => simp [truthy]
  | some s => simp [truthy]

/-- **C4.** The gap analysis reports under `episodes_missing_urls` exactly
the episodes of the checkpoint whose resolved-video-URL field is absent
(`none`) or empty (`some ""`): every such episode is included, and no
episode with a non-empty video URL is included. -/
theorem analyze_missing_urls_iff (c : Checkpoint) (e : EpisodeRecord) :
    e ∈ (analyze_checkpoint_status c).episodesMissingUrls ↔
      e ∈ c.episodes ∧ (e.videoUrl = none ∨ e.videoUrl = some "") := by
  simp only [analyze_checkpoint_status, List.mem_filter, Bool.not_eq_true']
  rw [truthy_eq_false_iff]

/-- **C3.** A series is selected as a verification candidate if and only
if its recorded episode count `R` is positive, strictly below the
catalog-stated total `T`, and the shortfall `T - R` is at most 20; in
particular a series with `T - R > 20` is never enqueued for verification
re-scraping. -/
theorem series_to_verify_iff (c : Checkpoint) (s : ShowRecord) :
    (s ∈ series_to_verify c ↔
      s ∈ c.shows ∧ s.type = "series" ∧
        0 < (epsOfShow c.episodes s.id).length ∧
        (epsOfShow c.episodes s.id).length < s.totalEpisodes.getD 0 ∧
        s.totalEpisodes.getD 0 - (epsOfShow c.episodes s.id).length ≤ 20) ∧
    (20 < s.totalEpisodes.getD 0 - (epsOfShow c.episodes s.id).length →
      s ∉ series_to_verify c) := by
  have hmain : s ∈ series_to_verify c ↔
      s ∈ c.shows ∧ s.type = "series" ∧
        0 < (epsOfShow c.episodes s.id).length ∧
        (epsOfShow c.episodes s.id).length < s.totalEpisodes.getD 0 ∧
        s.totalEpisodes.getD 0 - (epsOfShow c.episodes s.id).length ≤ 20 := by
    simp only [series_to_verify, List.mem_filter, Bool.and_eq_true, decide_eq_true_eq,
      and_assoc]
  refine ⟨hmain, fun hgt hmem => ?_⟩
  have := (hmain.mp hmem).2.2.2.2
  omega

/-! ### Merge behaviour of the two workflows (C2) -/

theorem replaceFirstEp_map_id (eps : List EpisodeRecord) (ne : EpisodeRecord) :
    (replaceFirstEp eps ne).map (fun e => e.id) = eps.map (fun e => e.id) := by
  induction eps with
  | nil => rfl
  | cons e rest ih =>
    by_cases h : e.id = ne.id
    · simp [replaceFirstEp, h]
    · simp [replaceFirstEp, h, ih]

theorem upsert_fold_nodup (newEps : List EpisodeRecord)
    (acc : List EpisodeRecord × List String)
    (hnd : (acc.1.map (fun e => e.id)).Nodup)
    (hset : ∀ x, x ∈ acc.2 ↔ x ∈ acc.1.map (fun e => e.id)) :
    (((newEps.foldl upsertStep acc).1).map (fun e => e.id)).Nodup := by
  induction newEps generalizing acc with
  | nil => exact hnd
  | cons ne rest ih =>
    rw [List.foldl_cons]
    by_cases h : ne.id ∈ acc.2
    · rw [upsertStep, if_pos h]
      exact ih _ (by rw [replaceFirstEp_map_id]; exact hnd)
        (fun x => by rw [replaceFirstEp_map_id]; exact hset x)
    · rw [upsertStep, if_neg h]
      refine ih _ ?_ ?_
      · simp only [List.map_append, List.map_cons, List.map_nil]
        rw [List.nodup_append]
        refine ⟨hnd, List.nodup_singleton _, ?_⟩
        intro x hx hx1
        simp only [List.mem_singleton] at hx1
        subst hx1
        exact h ((hset _).mpr hx)
      · intro x
        simp only [List.mem_cons, hset x, List.map_append, List.mem_append,
          List.map_cons, List.map_nil, List.mem_singleton]
        tauto

/-- A nearby statement that holds (C2 amended): in `run_complete_scrape`
the scrape-mode merge really is an id-keyed upsert, so merging any
sequence of task results into an accumulator whose episode ids are
pairwise distinct leaves the ids pairwise distinct — at most one record
per identifier, and re-merging cannot duplicate an episode. -/
theorem upsert_results_preserve_distinct_ids (eps : List EpisodeRecord)
    (results : List (List EpisodeRecord))
    (h : (eps.map (fun e => e.id)).Nodup) :
    (((results.foldl upsertEpisodes eps).map (fun e => e.id)).Nodup) := by
  induction results generalizing eps with
  | nil => exact h
  | cons r rest ih =>
    rw [List.foldl_cons]
    exact ih _ (upsert_fold_nodup r _ h (fun x => Iff.rfl))

/-- **C2 (counterexample).** The claim fails on the verification workflow:
`verify_series_completeness` extends the accumulator without any
identifier check (`episodes.extend(...)`), and `verify_and_scrape_series`
filters candidate grid items by URL, not by id, while numbering new
records by grid position.  On this concrete checkpoint — one recorded
episode with id `show1_ep2` and URL `/a`, a grid of two items with URLs
`/b` and `/c` — the merged accumulator holds two records with the
identifier `show1_ep2`. -/
theorem verify_merge_duplicates_id :
    (((verify_series_completeness c2ExSite c2ExCheckpoint).episodes.filter
        (fun e => e.id == "show1_ep2")).length = 2) ∧
      ((c2ExCheckpoint.episodes.map (fun e => e.id)).Nodup) := by
  constructor
  · rfl
  · decide

/-- Closed witness for the amended C2 statement at a concrete input. -/
theorem upsert_results_preserve_distinct_ids_witness :
    ((([[{ c2ExEpisode with id := "show1_ep1" }, c2ExEpisode]].foldl upsertEpisodes
        [c2ExEpisode]).map (fun e => e.id)).Nodup) :=
  upsert_results_preserve_distinct_ids [c2ExEpisode]
    [[{ c2ExEpisode with id := "show1_ep1" }, c2ExEpisode]] (by decide)

/-- **C7.** The fetcher returns the response body exactly when the HTTP
status is 200, and an explicit `none` on HTTP 404 and on any raised
transport exception or timeout; being a total function into `Option`, it
never propagates an exception for these ordinary failures. -/
theorem fetch_url_spec :
    (∀ status body, fetch_url (HttpAttempt.response status body) =
      if status = 200 then some body else none) ∧
    (∀ body, fetch_url (HttpAttempt.response 404 body) = none) ∧
    fetch_url HttpAttempt.excRaised = none := by
  refine ⟨fun status body => ?_, fun body => rfl, rfl⟩
  by_cases h : status = 404
  · subst h
    rfl
  · by_cases h2 : status = 200
    · subst h2
      rfl
    · simp [fetch_url, h, h2]

/-- **C8.** The checkpoint save runs its file operation entirely under the
mutual-exclusion lock (the trace starts with the acquire and ends with the
release), returns `true` exactly when the write succeeds, and on any write
failure logs the error and returns `false` — without raising (the
translation is total) and without retrying internally (exactly one write
attempt appears in every trace). -/
theorem save_checkpoint_safe_spec :
    ((save_checkpoint_safe WriteOutcome.ok).1 = true) ∧
    (∀ e, (save_checkpoint_safe (WriteOutcome.fail e)).1 = false ∧
      SaveEvent.logError ("[ERROR] Failed to save checkpoint: " ++ e) ∈
        (save_checkpoint_safe (WriteOutcome.fail e)).2) ∧
    (∀ w, ((save_checkpoint_safe w).2.countP (fun ev => ev == SaveEvent.fileWrite)) = 1 ∧
      (save_checkpoint_safe w).2.head? = some SaveEvent.lockAcquire ∧
      (save_checkpoint_safe w).2.getLast? = some SaveEvent.lockRelease ∧
      ((save_checkpoint_safe w).1 = true ↔ w = WriteOutcome.ok)) := by
  refine ⟨rfl, fun e => ⟨rfl, by simp [save_checkpoint_safe]⟩, fun w => ?_⟩
  cases w with
  | ok => refine ⟨rfl, rfl, rfl, by simp [save_checkpoint_safe]⟩
  | fail e =>
      refine ⟨?_, rfl, ?_, by simp [save_checkpoint_safe]⟩
      · simp [save_checkpoint_safe, List.countP_cons]
      · rfl

/-- **C9 (counterexample).** In a run of 20 tasks whose 10th future raised
(e.g. a worker timeout), no checkpoint save happens after the 10th
completed task — the first save is after the 20th — so more than 10
completed tasks of work sit unflushed, contradicting the claim that a save
follows every 10th completed task. -/
theorem tenth_task_save_skipped_on_exception :
    10 ∉ run_save_counts
        (List.replicate 9 TaskOutcome.success ++ [TaskOutcome.raised] ++
          List.replicate 10 TaskOutcome.success) ∧
      (List.replicate 9 TaskOutcome.success ++ [TaskOutcome.raised] ++
          List.replicate 10 TaskOutcome.success).length = 20 := by
  constructor
  · decide
  · decide

theorem enumFrom_getD_mem {α : Type} (l : List α) (dflt : α) :
    ∀ (n i : Nat), i < l.length → (n + i, l.getD i dflt) ∈ enumFrom n l := by
  induction l with
  | nil => intro n i h; simp at h
  | cons x xs ih =>
    intro n i h
    cases i with
    | zero => simp [enumFrom]
    | succ i =>
      have hi : i < xs.length := by simpa using h
      have := ih (n + 1) i hi
      simp only [enumFrom, List.mem_cons]
      right
      have harith : n + 1 + i = n + (i + 1) := by omega
      rw [harith] at this
      exact this

theorem processStep_fold_spec (outcomes : List TaskOutcome) :
    ∀ (n : Nat) (saved : List Nat),
      outcomes.foldl processStep (n, saved) =
        (n + outcomes.length,
         saved ++ (enumFrom (n + 1) outcomes).filterMap
           (fun p => if p.1 % 10 = 0 ∧ p.2 ≠ TaskOutcome.raised then some p.1 else none)) := by
  induction outcomes with
  | nil => intro n saved; simp [enumFrom]
  | cons o rest ih =>
    intro n saved
    rw [List.foldl_cons]
    cases o with
    | raised =>
      rw [show processStep (n, saved) TaskOutcome.raised = (n + 1, saved) from rfl, ih]
      simp only [enumFrom, List.filterMap_cons]
      rw [if_neg (by simp)]
      refine Prod.ext ?_ ?_
      · simp
        omega
      · rfl
    | success =>
      rw [show processStep (n, saved) TaskOutcome.success =
        (n + 1, if (n + 1) % 10 = 0 then saved ++ [n + 1] else saved) from rfl, ih]
      simp only [enumFrom, List.filterMap_cons]
      by_cases hmod : (n + 1) % 10 = 0
      · rw [if_pos hmod, if_pos (by simp [hmod])]
        refine Prod.ext (by simp; omega) ?_
        simp [List.append_assoc]
      · rw [if_neg hmod, if_neg (by simp [hmod])]
        exact Prod.ext (by simp; omega) rfl
    | failed =>
      rw [show processStep (n, saved) TaskOutcome.failed =
        (n + 1, if (n + 1) % 10 = 0 then saved ++ [n + 1] else saved) from rfl, ih]
      simp only [enumFrom, List.filterMap_cons]
      by_cases hmod : (n + 1) % 10 = 0
      · rw [if_pos hmod, if_pos (by simp [hmod])]
        refine Prod.ext (by simp; omega) ?_
        simp [List.append_assoc]
      · rw [if_neg hmod, if_neg (by simp [hmod])]
        exact Prod.ext (by simp; omega) rfl

/-- A nearby statement that holds (C9 amended): a checkpoint save follows
every 10th completed task **whose future result was retrieved without
raising** (when the 10th completion is an in-worker exception the
except-branch skips the save check), and a final save is always performed
when the run ends, at `tasks_completed = outcomes.length`. -/
theorem flush_after_10th_nonraised_task (outcomes : List TaskOutcome) (k : Nat)
    (hk : 0 < k) (hlen : 10 * k ≤ outcomes.length)
    (ho : outcomes.getD (10 * k - 1) TaskOutcome.raised ≠ TaskOutcome.raised) :
    10 * k ∈ run_save_counts outcomes ∧ outcomes.length ∈ run_save_counts outcomes := by
  constructor
  · unfold run_save_counts
    rw [processStep_fold_spec]
    have hidx : 10 * k - 1 < outcomes.length := by omega
    have hmem := enumFrom_getD_mem outcomes TaskOutcome.raised 1 (10 * k - 1) hidx
    have harith : 1 + (10 * k - 1) = 10 * k := by omega
    rw [harith] at hmem
    refine List.mem_append.mpr (Or.inl (List.mem_append.mpr (Or.inr ?_)))
    refine List.mem_filterMap.mpr ⟨(10 * k, outcomes.getD (10 * k - 1) TaskOutcome.raised),
      hmem, ?_⟩
    rw [if_pos ⟨by omega, ho⟩]
  · unfold run_save_counts
    simp

/-- Closed witness for the amended C9 statement: ten successful tasks,
a flush at the 10th and the final save at 10. -/
theorem flush_after_10th_nonraised_task_witness :
    10 * 1 ∈ run_save_counts (List.replicate 10 TaskOutcome.success) ∧
      (List.replicate 10 TaskOutcome.success).length ∈
        run_save_counts (List.replicate 10 TaskOutcome.success) :=
  flush_after_10th_nonraised_task (List.replicate 10 TaskOutcome.success) 1
    (by decide) (by decide) (by decide)

example : findNumPair ("1 - 3").data = some 3 := by decide

example : findNumPair ("Episode 12").data = none := by decide

example : imvbox_year "Drama 2022 | 90 min" = some 2022 := by decide

example : imvbox_year "x2022 | 90 min" = none := by decide

/-- **C6 (counterexample).** On an episode item whose numerando text
(`"Episode"`) contains no `NN - NN` pattern, the FarsiPlex extractor does
not emit `None` for the episode number: it substitutes the computed count
`len(seasons[-1]["episodes"]) + 1 = 4`. -/
theorem fp_episode_number_substituted :
    (extract_episode_data c6ExItem c6ExSeasons).map (fun ed => ed.episodeNumber) =
        some 4 ∧
      findNumPair ("Episode").data = none := by
  constructor
  · rfl
  · decide

theorem yearMatchAt_bounds (cs : List Char) (y : Nat) (h : yearMatchAt cs = some y) :
    1900 ≤ y ∧ y ≤ 2099 := by
  match cs with
  | [] => simp [yearMatchAt] at h
  | [c1] => simp [yearMatchAt] at h
  | [c1, c2] => simp [yearMatchAt] at h
  | [c1, c2, c3] => simp [yearMatchAt] at h
  | c1 :: c2 :: c3 :: c4 :: rest =>
    rw [yearMatchAt] at h
    by_cases hc : ((c1 = '1' ∧ c2 = '9') ∨ (c1 = '2' ∧ c2 = '0')) ∧
        isDigitCh c3 ∧ isDigitCh c4
    · rw [if_pos hc] at h
      obtain ⟨h12, hd3, hd4⟩ := hc
      have hb3 : 48 ≤ c3.toNat ∧ c3.toNat ≤ 57 := by
        simpa [isDigitCh, Bool.and_eq_true, decide_eq_true_eq] using hd3
      have hb4 : 48 ≤ c4.toNat ∧ c4.toNat ≤ 57 := by
        simpa [isDigitCh, Bool.and_eq_true, decide_eq_true_eq] using hd4
      by_cases hbar : (rest.dropWhile isWsCh).head? = some '|'
      · rw [if_pos hbar] at h
        simp only [Option.some_inj] at h
        rcases h12 with ⟨h1, h2⟩ | ⟨h1, h2⟩ <;> subst h1 <;> subst h2 <;>
          simp only [← h, show ('1').toNat = 49 from rfl, show ('9').toNat = 57 from rfl,
            show ('2').toNat = 50 from rfl, show ('0').toNat = 48 from rfl] <;>
          constructor <;> omega
      · rw [if_neg hbar] at h
        simp at h
    · rw [if_neg hc] at h
      simp at h

theorem findYearBar_bounds (cs : List Char) :
    ∀ (prev : Option Char) (y : Nat),
      findYearBar prev cs = some y → 1900 ≤ y ∧ y ≤ 2099 := by
  induction cs with
  | nil =>
    intro prev y h
    simp [findYearBar] at h
  | cons c rest ih =>
    intro prev y h
    rw [findYearBar.eq_def] at h
    split at h
    · simp at h
    · rename_i c2 rest2 heq
      injection heq with hc hr
      subst hc
      subst hr
      split at h
      · split at h
        · rename_i y0 heq2
          cases h
          exact yearMatchAt_bounds _ _ heq2
        · exact ih _ _ h
      · exact ih _ _ h

/-- A nearby statement that holds (C6 amended): the IMVBox detail parser
emits `None` for an unparseable year and otherwise a genuine matched year
in `[1900, 2099]` — never a sentinel like 0 or -1; the FarsiPlex episode
extractor, however, does not emit `None` when the episode number cannot be
parsed from the numerando element: with a non-empty seasons list it
substitutes the computed positional count
`len(seasons[-1]["episodes"]) + 1`. -/
theorem numeric_field_edge_policy :
    (∀ pageText : String, imvbox_year pageText = none ∨
      ∃ y, imvbox_year pageText = some y ∧ 1900 ≤ y ∧ y ≤ 2099) ∧
    (∀ (item : FpItem) (seasons : List FpSeason) (last : FpSeason),
      item.episodeHref.isSome = true →
      (item.numerandoText.bind fun t => findNumPair t.data) = none →
      seasons.getLast? = some last →
      ∃ ed, extract_episode_data item seasons = some ed ∧
        ed.episodeNumber = last.episodes.length + 1) := by
  constructor
  · intro pageText
    rcases hy : imvbox_year pageText with _ | y
    · exact Or.inl rfl
    · exact Or.inr ⟨y, rfl, findYearBar_bounds _ _ _ hy⟩
  · intro item seasons last hh hn hl
    rcases hhref : item.episodeHref with _ | href
    · rw [hhref] at hh
      simp at hh
    · simp only [extract_episode_data, hhref, hn, hl]
      exact ⟨_, rfl, rfl⟩

/-! ## Idempotence of the harvest (C5)

`run_complete_scrape` is proved idempotent over a fixed `Site` for
well-formed starting checkpoints: pairwise-distinct show ids,
pairwise-distinct episode ids, and episode ids consistent with the
id scheme `f"{show_id}_ep{idx}"` (an episode whose id matches a show's
scheme belongs to that show, and schemes of distinct shows do not
collide).  The merge loops run under the checkpoint lock and replacements
are keyed by distinct ids, so the deterministic submission order modelled
here is one admissible completion order and the result is
order-independent. -/

theorem mem_map_id_of_mem {l : List ShowRecord} {s : ShowRecord} (h : s ∈ l) :
    s.id ∈ l.map (fun x => x.id) := List.mem_map_of_mem _ h

theorem show_eq_of_mem_of_id_eq {l : List ShowRecord} {a b : ShowRecord}
    (hnd : (l.map (fun x => x.id)).Nodup) (ha : a ∈ l) (hb : b ∈ l)
    (h : a.id = b.id) : a = b :=
  List.inj_on_of_nodup_map hnd ha hb h

theorem ep_eq_of_mem_of_id_eq {l : List EpisodeRecord} {a b : EpisodeRecord}
    (hnd : (l.map (fun x => x.id)).Nodup) (ha : a ∈ l) (hb : b ∈ l)
    (h : a.id = b.id) : a = b :=
  List.inj_on_of_nodup_map hnd ha hb h

theorem map_if_id_show (l : List ShowRecord) (sid : String) (new : ShowRecord)
    (h : ∀ x ∈ l, x.id ≠ sid) :
    (l.map fun s => if s.id = sid then new else s) = l := by
  induction l with
  | nil => rfl
  | cons x rest ih =>
    rw [List.map_cons, if_neg (h x (by simp)), ih fun y hy => h y (by simp [hy])]

theorem map_if_id_ep (l : List EpisodeRecord) (eid : String) (new : EpisodeRecord)
    (h : ∀ x ∈ l, x.id ≠ eid) :
    (l.map fun e => if e.id = eid then new else e) = l := by
  induction l with
  | nil => rfl
  | cons x rest ih =>
    rw [List.map_cons, if_neg (h x (by simp)), ih fun y hy => h y (by simp [hy])]

theorem replaceFirstShow_eq_map (shows : List ShowRecord) (sid : String)
    (new : ShowRecord) (hnd : (shows.map (fun s => s.id)).Nodup) :
    replaceFirstShow shows sid new =
      shows.map fun s => if s.id = sid then new else s := by
  induction shows with
  | nil => rfl
  | cons s rest ih =>
    rw [List.map_cons] at hnd
    have hnd2 := List.nodup_cons.mp hnd
    rw [replaceFirstShow, List.map_cons]
    by_cases h : s.id = sid
    · rw [if_pos h, if_pos h]
      have hno : ∀ x ∈ rest, x.id ≠ sid := by
        intro x hx hxs
        exact hnd2.1 (by rw [h, ← hxs]; exact mem_map_id_of_mem hx)
      rw [map_if_id_show rest sid new hno]
    · rw [if_neg h, if_neg h, ih hnd2.2]

theorem replaceFirstEp_eq_map (eps : List EpisodeRecord) (new : EpisodeRecord)
    (hnd : (eps.map (fun e => e.id)).Nodup) :
    replaceFirstEp eps new =
      eps.map fun e => if e.id = new.id then new else e := by
  induction eps with
  | nil => rfl
  | cons e rest ih =>
    rw [List.map_cons] at hnd
    have hnd2 := List.nodup_cons.mp hnd
    rw [replaceFirstEp, List.map_cons]
    by_cases h : e.id = new.id
    · rw [if_pos h, if_pos h]
      have hno : ∀ x ∈ rest, x.id ≠ new.id := by
        intro x hx hxs
        exact hnd2.1 (by rw [h, ← hxs]; exact List.mem_map_of_mem _ hx)
      rw [map_if_id_ep rest new.id new hno]
    · rw [if_neg h, if_neg h, ih hnd2.2]

theorem replaceFirstShow_self (shows : List ShowRecord) (s : ShowRecord)
    (hnd : (shows.map (fun x => x.id)).Nodup) (hs : s ∈ shows) :
    replaceFirstShow shows s.id s = shows := by
  rw [replaceFirstShow_eq_map shows s.id s hnd]
  have : ∀ x ∈ shows, (if x.id = s.id then s else x) = x := by
    intro x hx
    by_cases h : x.id = s.id
    · rw [if_pos h, show_eq_of_mem_of_id_eq hnd hx hs h]
    · rw [if_neg h]
  rw [List.map_congr_left this, List.map_id']

theorem replaceFirstEp_self (eps : List EpisodeRecord) (e : EpisodeRecord)
    (hnd : (eps.map (fun x => x.id)).Nodup) (he : e ∈ eps) :
    replaceFirstEp eps e = eps := by
  rw [replaceFirstEp_eq_map eps e hnd]
  have : ∀ x ∈ eps, (if x.id = e.id then e else x) = x := by
    intro x hx
    by_cases h : x.id = e.id
    · rw [if_pos h, ep_eq_of_mem_of_id_eq hnd hx he h]
    · rw [if_neg h]
  rw [List.map_congr_left this, List.map_id']

theorem replaceFirstEp_append_right (l1 l2 : List EpisodeRecord)
    (new : EpisodeRecord) (h : ∀ x ∈ l1, x.id ≠ new.id) :
    replaceFirstEp (l1 ++ l2) new = l1 ++ replaceFirstEp l2 new := by
  induction l1 with
  | nil => rfl
  | cons x rest ih =>
    rw [List.cons_append, replaceFirstEp, if_neg (h x (by simp)),
      ih fun y hy => h y (by simp [hy]), List.cons_append]

theorem mem_replaceFirstEp (l : List EpisodeRecord) (new : EpisodeRecord) :
    ∀ x ∈ replaceFirstEp l new, x ∈ l ∨ x = new := by
  induction l with
  | nil => intro x hx; simp [replaceFirstEp] at hx
  | cons e rest ih =>
    intro x hx
    rw [replaceFirstEp] at hx
    by_cases h : e.id = new.id
    · rw [if_pos h] at hx
      rcases List.mem_cons.mp hx with h2 | h2
      · exact Or.inr h2
      · exact Or.inl (by simp [h2])
    · rw [if_neg h] at hx
      rcases List.mem_cons.mp hx with h2 | h2
      · exact Or.inl (by simp [h2])
      · rcases ih x h2 with h3 | h3
        · exact Or.inl (by simp [h3])
        · exact Or.inr h3

theorem replaceFirstEp_length (l : List EpisodeRecord) (new : EpisodeRecord) :
    (replaceFirstEp l new).length = l.length := by
  induction l with
  | nil => rfl
  | cons e rest ih =>
    rw [replaceFirstEp]
    by_cases h : e.id = new.id
    · rw [if_pos h, List.length_cons, List.length_cons]
    · rw [if_neg h, List.length_cons, List.length_cons, ih]

/-! ### Facts about one scrape result -/

theorem scrape_core (site : Site) (s : ShowRecord) :
    (scrape_show_details site s).1.id = s.id ∧
    (scrape_show_details site s).1.type = s.type ∧
    (scrape_show_details site s).1.url = s.url ∧
    (scrape_show_details site s).1.totalEpisodes = s.totalEpisodes := by
  unfold scrape_show_details
  by_cases h : s.type = "movie" <;> simp [h]

theorem scrape_movie_eps (site : Site) (s : ShowRecord) (h : s.type = "movie") :
    (scrape_show_details site s).2 = [] := by
  unfold scrape_show_details
  simp [h]

theorem scrape_series_fst (site : Site) (s : ShowRecord) (h : s.type = "series") :
    (scrape_show_details site s).1 =
      { s with viewCount := some (site.viewCountOf (resolveUrl s.url)) } := by
  unfold scrape_show_details
  simp [h]

theorem scrape_series_snd (site : Site) (s : ShowRecord) (h : s.type = "series") :
    (scrape_show_details site s).2 =
      (match site.grid (resolveUrl s.url) with
       | none => []
       | some items => buildEpisodes site s.id items) := by
  unfold scrape_show_details
  simp [h]

theorem scrape_movie_fst (site : Site) (s : ShowRecord) (h : s.type = "movie") :
    (scrape_show_details site s).1 =
      { s with viewCount := some (site.viewCountOf (resolveUrl s.url)),
               videoUrl := some (extract_video_url site "movie" s.url) } := by
  unfold scrape_show_details
  simp [h]

theorem scrape_other_eps (site : Site) (s : ShowRecord)
    (h1 : ¬ s.type = "movie") (h2 : ¬ s.type = "series") :
    (scrape_show_details site s).2 = [] := by
  unfold scrape_show_details
  simp [h1, h2]

theorem scrape_snd_of_core_eq (site : Site) (a b : ShowRecord)
    (hid : b.id = a.id) (hty : b.type = a.type) (hurl : b.url = a.url) :
    (scrape_show_details site b).2 = (scrape_show_details site a).2 := by
  by_cases hm : a.type = "movie"
  · rw [scrape_movie_eps site a hm, scrape_movie_eps site b (by rw [hty, hm])]
  · by_cases hs : a.type = "series"
    · rw [scrape_series_snd site a hs, scrape_series_snd site b (by rw [hty, hs]),
        hid, hurl]
    · rw [scrape_other_eps site a hm hs,
        scrape_other_eps site b (by rw [hty]; exact hm) (by rw [hty]; exact hs)]

theorem scrape_idem_fst (site : Site) (s : ShowRecord) :
    (scrape_show_details site ((scrape_show_details site s).1)).1 =
      (scrape_show_details site s).1 := by
  by_cases h : s.type = "movie"
  · rw [scrape_movie_fst site s h]
    rw [scrape_movie_fst site _ (by simp [h])]
  · by_cases h2 : s.type = "series"
    · rw [scrape_series_fst site s h2]
      rw [scrape_series_fst site _ (by simp [h2])]
    · unfold scrape_show_details
      simp [h, h2]

theorem buildEpisodes_mem (site : Site) (sid : String) (items : List PageItem) :
    ∀ e ∈ buildEpisodes site sid items,
      e.showId = sid ∧ (∃ i, e.id = epId sid i) ∧
        e.videoUrl = some (extract_video_url site "series" e.url) := by
  intro e he
  unfold buildEpisodes at he
  obtain ⟨p, -, hp⟩ := List.mem_filterMap.mp he
  rcases hhref : p.2.href with _ | href
  · rw [hhref] at hp
    simp at hp
  · rw [hhref] at hp
    simp only [Option.some_inj] at hp
    refine ⟨by rw [← hp], ⟨p.1, by rw [← hp]⟩, by rw [← hp]⟩

theorem scrape_series_eps_mem (site : Site) (s : ShowRecord) (h : s.type = "series") :
    ∀ e ∈ (scrape_show_details site s).2,
      e.showId = s.id ∧ (∃ i, e.id = epId s.id i) ∧
        e.videoUrl = some (extract_video_url site "series" e.url) := by
  intro e he
  rw [scrape_series_snd site s h] at he
  rcases hg : site.grid (resolveUrl s.url) with _ | items
  · rw [hg] at he
    simp at he
  · rw [hg] at he
    exact buildEpisodes_mem site s.id items e he

/-! ### Decoupling the scrape-merge fold into its two components -/

theorem scrapeFold_fst (site : Site) (tasks : List ShowRecord) :
    ∀ (shows : List ShowRecord) (eps : List EpisodeRecord),
      (tasks.foldl (fun acc s => mergeScrapeResult acc s.id (scrape_show_details site s))
          (shows, eps)).1 =
        tasks.foldl (fun sh s => replaceFirstShow sh s.id (scrape_show_details site s).1)
          shows := by
  induction tasks with
  | nil => intro shows eps; rfl
  | cons t rest ih =>
    intro shows eps
    rw [List.foldl_cons, List.foldl_cons]
    exact ih _ _

theorem scrapeFold_snd (site : Site) (tasks : List ShowRecord) :
    ∀ (shows : List ShowRecord) (eps : List EpisodeRecord),
      (tasks.foldl (fun acc s => mergeScrapeResult acc s.id (scrape_show_details site s))
          (shows, eps)).2 =
        tasks.foldl (fun e s => upsertEpisodes e (scrape_show_details site s).2) eps := by
  induction tasks with
  | nil => intro shows eps; rfl
  | cons t rest ih =>
    intro shows eps
    rw [List.foldl_cons, List.foldl_cons]
    exact ih _ _

/-! ### The upsert only appends when the incoming ids are fresh -/

theorem upsertEpisodes_nodup (eps new : List EpisodeRecord)
    (h : (eps.map (fun e => e.id)).Nodup) :
    ((upsertEpisodes eps new).map (fun e => e.id)).Nodup := by
  unfold upsertEpisodes
  exact upsert_fold_nodup new (eps, eps.map fun e => e.id) h (fun _ => Iff.rfl)

theorem upsertStep_fold_append (new : List EpisodeRecord) :
    ∀ (eps extra : List EpisodeRecord) (idset : List String),
      (∀ x, x ∈ idset ↔ x ∈ (eps ++ extra).map (fun e => e.id)) →
      (∀ ne ∈ new, ne.id ∉ eps.map (fun e => e.id)) →
      ∃ extra2,
        (new.foldl upsertStep (eps ++ extra, idset)).1 = eps ++ extra2 ∧
        (∀ x ∈ extra2, x ∈ extra ∨ x ∈ new) ∧
        extra.length ≤ extra2.length := by
  induction new with
  | nil =>
    intro eps extra idset hset hnc
    exact ⟨extra, rfl, fun x hx => Or.inl hx, le_refl _⟩
  | cons ne rest ih =>
    intro eps extra idset hset hnc
    rw [List.foldl_cons]
    by_cases h : ne.id ∈ idset
    · rw [upsertStep, if_pos h]
      have hmem : ne.id ∈ (eps ++ extra).map (fun e => e.id) := (hset _).mp h
      rw [List.map_append, List.mem_append] at hmem
      have heps : ne.id ∉ eps.map (fun e => e.id) := hnc ne (by simp)
      have hrw : replaceFirstEp (eps ++ extra) ne = eps ++ replaceFirstEp extra ne :=
        replaceFirstEp_append_right _ _ _
          (fun x hxx hxid => heps (hxid ▸ List.mem_map_of_mem _ hxx))
      rw [hrw]
      obtain ⟨e2, he2, hmem2, hlen⟩ := ih eps (replaceFirstEp extra ne) idset
        (fun x => by rw [hset x, List.map_append, List.map_append, replaceFirstEp_map_id])
        (fun x hxx => hnc x (by simp [hxx]))
      refine ⟨e2, he2, ?_, ?_⟩
      · intro x hx2
        rcases hmem2 x hx2 with h3 | h3
        · rcases mem_replaceFirstEp _ _ x h3 with h4 | h4
          · exact Or.inl h4
          · exact Or.inr (by simp [h4])
        · exact Or.inr (by simp [h3])
      · calc extra.length = (replaceFirstEp extra ne).length :=
              (replaceFirstEp_length _ _).symm
          _ ≤ e2.length := hlen
    · rw [upsertStep, if_neg h]
      rw [List.append_assoc]
      obtain ⟨e2, he2, hmem2, hlen⟩ := ih eps (extra ++ [ne]) (ne.id :: idset)
        (fun x => by
          rw [List.mem_cons, hset x]
          simp only [List.map_append, List.mem_append, List.map_cons, List.map_nil,
            List.mem_singleton]
          tauto)
        (fun x hxx => hnc x (by simp [hxx]))
      refine ⟨e2, he2, ?_, ?_⟩
      · intro x hx2
        rcases hmem2 x hx2 with h3 | h3
        · rw [List.mem_append] at h3
          rcases h3 with h4 | h4
          · exact Or.inl h4
          · exact Or.inr (by simp at h4; simp [h4])
        · exact Or.inr (by simp [h3])
      · calc extra.length ≤ (extra ++ [ne]).length := by
              rw [List.length_append]
              omega
          _ ≤ e2.length := hlen

theorem upsert_append_only (eps new : List EpisodeRecord)
    (hnc : ∀ ne ∈ new, ne.id ∉ eps.map (fun e => e.id)) :
    ∃ extra, upsertEpisodes eps new = eps ++ extra ∧
      (∀ x ∈ extra, x ∈ new) ∧ (new ≠ [] → extra ≠ []) := by
  cases new with
  | nil =>
    refine ⟨[], ?_, by simp, by simp⟩
    rw [List.append_nil]
    rfl
  | cons ne rest =>
    have h0 : ne.id ∉ eps.map (fun e => e.id) := hnc ne (by simp)
    unfold upsertEpisodes
    rw [List.foldl_cons, upsertStep, if_neg h0]
    obtain ⟨e2, he2, hmem2, hlen⟩ := upsertStep_fold_append rest eps [ne]
      (ne.id :: eps.map fun e => e.id)
      (fun x => by
        simp only [List.mem_cons, List.map_append, List.mem_append, List.map_cons,
          List.map_nil, List.mem_singleton]
        tauto)
      (fun x hxx => hnc x (by simp [hxx]))
    refine ⟨e2, he2, ?_, ?_⟩
    · intro x hx
      rcases hmem2 x hx with h3 | h3
      · simp only [List.mem_singleton] at h3
        simp [h3]
      · simp [h3]
    · intro _ habs
      rw [habs] at hlen
      simp at hlen

/-! ### What the show-replacement fold produces -/

theorem showsFold_spec (site : Site) (tasks : List ShowRecord) :
    ∀ (shows : List ShowRecord),
      (shows.map (fun s => s.id)).Nodup →
      (tasks.map (fun s => s.id)).Nodup →
      tasks.foldl (fun sh s => replaceFirstShow sh s.id (scrape_show_details site s).1)
          shows =
        shows.map fun a =>
          match tasks.find? (fun t => t.id == a.id) with
          | some t => (scrape_show_details site t).1
          | none => a := by
  induction tasks with
  | nil =>
    intro shows h1 h2
    exact (List.map_id' shows).symm
  | cons t rest ih =>
    intro shows h1 h2
    rw [List.foldl_cons]
    rw [List.map_cons] at h2
    have h2n := List.nodup_cons.mp h2
    rw [replaceFirstShow_eq_map _ _ _ h1]
    have hids : ((shows.map fun s =>
        if s.id = t.id then (scrape_show_details site t).1 else s).map
          (fun s => s.id)) = shows.map (fun s => s.id) := by
      rw [List.map_map]
      apply List.map_congr_left
      intro a _
      by_cases h : a.id = t.id
      · simp [h, (scrape_core site t).1]
      · simp [h]
    rw [ih _ (by rw [hids]; exact h1) h2n.2, List.map_map]
    apply List.map_congr_left
    intro a _
    simp only [Function.comp_apply]
    by_cases h : a.id = t.id
    · rw [if_pos h]
      have hfind : rest.find?
          (fun x => x.id == (scrape_show_details site t).1.id) = none := by
        rw [List.find?_eq_none]
        intro x hx
        simp only [beq_iff_eq, (scrape_core site t).1]
        intro hxe
        exact h2n.1 (by rw [← hxe]; exact List.mem_map_of_mem _ hx)
      rw [hfind]
      have hfind2 : List.find? (fun x => x.id == a.id) (t :: rest) = some t :=
        List.find?_cons_of_pos _ (by simp [h])
      rw [hfind2]
    · rw [if_neg h]
      have hfind2 : List.find? (fun x => x.id == a.id) (t :: rest) =
          List.find? (fun x => x.id == a.id) rest :=
        List.find?_cons_of_neg _ (by simp; intro hh; exact h hh.symm)
      rw [hfind2]

theorem epsFold_spec (site : Site) (c : Checkpoint)
    (hW3 : ∀ e ∈ c.episodes, ∀ s ∈ c.shows, (∃ i, e.id = epId s.id i) → e.showId = s.id)
    (hW4 : ∀ s ∈ c.shows, ∀ t ∈ c.shows, (∃ i j, epId s.id i = epId t.id j) →
      s.id = t.id) :
    ∀ (tasks : List ShowRecord) (newEps : List EpisodeRecord),
      (∀ t ∈ tasks, t ∈ c.shows ∧
        (t.type = "movie" ∨ (t.type = "series" ∧ epsOfShow c.episodes t.id = []))) →
      ((tasks.map (fun s => s.id)).Nodup) →
      (∀ x ∈ newEps, BuiltEp site c x) →
      (∀ x ∈ newEps, x.showId ∉ tasks.map (fun s => s.id)) →
      (((c.episodes ++ newEps).map (fun e => e.id)).Nodup) →
      ∃ extra,
        tasks.foldl (fun eps s => upsertEpisodes eps (scrape_show_details site s).2)
            (c.episodes ++ newEps) = c.episodes ++ newEps ++ extra ∧
        (∀ x ∈ extra, BuiltEp site c x) ∧
        (((c.episodes ++ newEps ++ extra).map (fun e => e.id)).Nodup) ∧
        (∀ t ∈ tasks, (scrape_show_details site t).2 ≠ [] →
          ∃ x ∈ extra, x.showId = t.id) := by
  intro tasks
  induction tasks with
  | nil =>
    intro newEps hT hTnd hnew hfresh hnd
    refine ⟨[], by simp, by simp, by simpa using hnd, by simp⟩
  | cons t rest ih =>
    intro newEps hT hTnd hnew hfresh hnd
    rw [List.foldl_cons]
    obtain ⟨htc, hty⟩ := hT t (by simp)
    rw [List.map_cons] at hTnd
    have hTnd2 := List.nodup_cons.mp hTnd
    rcases hty with hmov | ⟨hser, hnoeps⟩
    · rw [scrape_movie_eps site t hmov,
        show upsertEpisodes (c.episodes ++ newEps) [] = c.episodes ++ newEps from rfl]
      obtain ⟨extra, heq, hb, hnd2, hcov⟩ := ih newEps (fun u hu => hT u (by simp [hu]))
        hTnd2.2 hnew
        (fun x hx hmem => hfresh x hx
          (by rw [List.map_cons]; exact List.mem_cons_of_mem _ hmem)) hnd
      refine ⟨extra, heq, hb, hnd2, ?_⟩
      intro u hu hne
      rcases List.mem_cons.mp hu with rfl | hu2
      · exact absurd (scrape_movie_eps site u hmov) hne
      · exact hcov u hu2 hne
    · have hmemprop := scrape_series_eps_mem site t hser
      have hnc : ∀ ne ∈ (scrape_show_details site t).2,
          ne.id ∉ (c.episodes ++ newEps).map (fun e => e.id) := by
        intro ne hne hmem
        obtain ⟨hshow, ⟨i, hid⟩, hvid⟩ := hmemprop ne hne
        rw [List.map_append, List.mem_append] at hmem
        rcases hmem with hm | hm
        · obtain ⟨e0, he0, he0id⟩ := List.mem_map.mp hm
          have hsid : e0.showId = t.id := hW3 e0 he0 t htc ⟨i, by rw [he0id, hid]⟩
          have hin : e0 ∈ epsOfShow c.episodes t.id := by
            unfold epsOfShow
            rw [List.mem_filter]
            exact ⟨he0, by simp [hsid]⟩
          rw [hnoeps] at hin
          simp at hin
        · obtain ⟨x, hx, hxid⟩ := List.mem_map.mp hm
          obtain ⟨⟨s2, hs2, hs2t, hs2sh, hs2no, j, hxid2⟩, hxv⟩ := hnew x hx
          have hcol : s2.id = t.id :=
            hW4 s2 hs2 t htc ⟨j, i, by rw [← hxid2, hxid, hid]⟩
          refine hfresh x hx ?_
          rw [List.map_cons, hs2sh, hcol]
          exact List.mem_cons_self _ _
      obtain ⟨extraT, heqT, hmemT, hneT⟩ :=
        upsert_append_only (c.episodes ++ newEps) _ hnc
      have hbT : ∀ x ∈ extraT, x.showId = t.id ∧ BuiltEp site c x := by
        intro x hx
        obtain ⟨hshow, hidsch, hvid⟩ := hmemprop x (hmemT x hx)
        exact ⟨hshow, ⟨⟨t, htc, hser, hshow, hnoeps, hidsch⟩, hvid⟩⟩
      have hndT : ((c.episodes ++ (newEps ++ extraT)).map (fun e => e.id)).Nodup := by
        have := upsertEpisodes_nodup (c.episodes ++ newEps)
          (scrape_show_details site t).2 hnd
        rw [heqT, List.append_assoc] at this
        exact this
      obtain ⟨extra2, heq2, hb2, hnd3, hcov2⟩ := ih (newEps ++ extraT)
        (fun u hu => hT u (by simp [hu])) hTnd2.2
        (fun x hx => by
          rcases List.mem_append.mp hx with h2 | h2
          · exact hnew x h2
          · exact (hbT x h2).2)
        (fun x hx hmem => by
          rcases List.mem_append.mp hx with h2 | h2
          · exact hfresh x h2 (by rw [List.map_cons]; exact List.mem_cons_of_mem _ hmem)
          · rw [(hbT x h2).1] at hmem
            exact hTnd2.1 hmem)
        hndT
      rw [heqT, List.append_assoc, heq2]
      refine ⟨extraT ++ extra2, ?_, ?_, ?_, ?_⟩
      · simp [List.append_assoc]
      · intro x hx
        rcases List.mem_append.mp hx with h2 | h2
        · exact (hbT x h2).2
        · exact hb2 x h2
      · simpa [List.append_assoc] using hnd3
      · intro u hu hne
        rcases List.mem_cons.mp hu with rfl | hu2
        · obtain ⟨x, hx⟩ := List.exists_mem_of_ne_nil extraT (hneT hne)
          exact ⟨x, List.mem_append.mpr (Or.inl hx), (hbT x hx).1⟩
        · obtain ⟨x, hx, hxs⟩ := hcov2 u hu2 hne
          exact ⟨x, List.mem_append.mpr (Or.inr hx), hxs⟩

theorem extract_missing_eq (site : Site) (l : List EpisodeRecord) :
    extract_missing_urls_for_show site l =
      l.map fun e => if truthy e.videoUrl then e else updVal site e := rfl

theorem updFold_spec (f : EpisodeRecord → EpisodeRecord)
    (hf : ∀ e, (f e).id = e.id) (l : List EpisodeRecord) :
    ∀ (eps : List EpisodeRecord),
      ((eps.map (fun e => e.id)).Nodup) →
      ((l.map (fun e => e.id)).Nodup) →
      (∀ e ∈ l, e ∈ eps) →
      (l.map f).foldl replaceFirstEp eps =
        eps.map fun x => if x ∈ l then f x else x := by
  induction l with
  | nil =>
    intro eps h1 h2 h3
    simp
  | cons e rest ih =>
    intro eps h1 h2 h3
    rw [List.map_cons, List.foldl_cons]
    have hmem : e ∈ eps := h3 e (by simp)
    rw [List.map_cons] at h2
    have h2n := List.nodup_cons.mp h2
    have hre := replaceFirstEp_eq_map eps (f e) h1
    simp only [hf] at hre
    rw [hre]
    have hids : ((eps.map fun x => if x.id = e.id then f e else x).map
        (fun x => x.id)) = eps.map (fun x => x.id) := by
      rw [List.map_map]
      apply List.map_congr_left
      intro a _
      by_cases h : a.id = e.id
      · simp [h, hf]
      · simp [h]
    have hmem2 : ∀ u ∈ rest, u ∈ eps.map fun x => if x.id = e.id then f e else x := by
      intro u hu
      have hne : u.id ≠ e.id := fun hh =>
        h2n.1 (by rw [← hh]; exact List.mem_map_of_mem _ hu)
      exact List.mem_map.mpr ⟨u, h3 u (by simp [hu]), by rw [if_neg hne]⟩
    rw [ih _ (by rw [hids]; exact h1) h2n.2 hmem2, List.map_map]
    apply List.map_congr_left
    intro a ha
    simp only [Function.comp_apply]
    by_cases h : a.id = e.id
    · rw [if_pos h]
      have hae : a = e := ep_eq_of_mem_of_id_eq h1 ha hmem h
      have hfe : f e ∉ rest := by
        intro hfr
        exact h2n.1 (by rw [← hf e]; exact List.mem_map_of_mem _ hfr)
      rw [if_neg hfe, hae, if_pos (List.mem_cons_self e rest)]
    · rw [if_neg h]
      have hane : a ≠ e := fun hh => h (by rw [hh])
      by_cases hr : a ∈ rest
      · rw [if_pos hr, if_pos (List.mem_cons_of_mem _ hr)]
      · rw [if_neg hr, if_neg (by
          intro hh
          rcases List.mem_cons.mp hh with hh2 | hh2
          · exact hane hh2
          · exact hr hh2)]

theorem epsOfShow_sublist (eps : List EpisodeRecord) (sid : String) :
    (epsOfShow eps sid).Sublist eps := List.filter_sublist eps

theorem epsOfShow_showId {eps : List EpisodeRecord} {sid : String} :
    ∀ e ∈ epsOfShow eps sid, e.showId = sid := by
  intro e he
  unfold epsOfShow at he
  rw [List.mem_filter] at he
  exact of_decide_eq_true he.2

theorem mem_epsOfShow {eps : List EpisodeRecord} {sid : String} {e : EpisodeRecord}
    (he : e ∈ eps) (hs : e.showId = sid) : e ∈ epsOfShow eps sid := by
  unfold epsOfShow
  rw [List.mem_filter]
  exact ⟨he, by simp [hs]⟩

theorem extractFold_spec (site : Site) (c : Checkpoint)
    (hW2 : ((c.episodes).map (fun e => e.id)).Nodup) :
    ∀ (xtasks : List (String × List EpisodeRecord))
      (F : EpisodeRecord → EpisodeRecord) (NEW : List EpisodeRecord),
      (∀ e, (F e).id = e.id) →
      (∀ p ∈ xtasks, p.2 = epsOfShow c.episodes p.1) →
      ((xtasks.map (fun p => p.1)).Nodup) →
      (∀ p ∈ xtasks, ∀ e ∈ c.episodes, e.showId = p.1 → F e = e) →
      (((c.episodes.map F ++ NEW).map (fun e => e.id)).Nodup) →
      xtasks.foldl
          (fun eps t =>
            (extract_missing_urls_for_show site t.2).foldl replaceFirstEp eps)
          (c.episodes.map F ++ NEW) =
        c.episodes.map (fun e =>
          if e.showId ∈ xtasks.map (fun p => p.1) ∧ ¬ truthy e.videoUrl = true then
            updVal site e
          else F e) ++ NEW := by
  intro xtasks
  induction xtasks with
  | nil =>
    intro F NEW hFid htask hsnd hfresh hnd
    simp
  | cons p rest ih =>
    intro F NEW hFid htask hsnd hfresh hnd
    rw [List.foldl_cons]
    have hp : p.2 = epsOfShow c.episodes p.1 := htask p (by simp)
    rw [List.map_cons] at hsnd
    have hsn := List.nodup_cons.mp hsnd
    have hg : ∀ e, ((fun e => if truthy e.videoUrl then e else updVal site e) e).id
        = e.id := by
      intro e
      by_cases h : truthy e.videoUrl <;> simp [h, updVal]
    have hlsub : p.2.Sublist c.episodes := by
      rw [hp]
      exact epsOfShow_sublist _ _
    have hlnd : (p.2.map (fun e => e.id)).Nodup :=
      (hlsub.map (fun e => e.id)).nodup hW2
    have hlin : ∀ e ∈ p.2, e ∈ c.episodes.map F ++ NEW := by
      intro e he
      have hec : e ∈ c.episodes := hlsub.subset he
      have hsid : e.showId = p.1 := by
        rw [hp] at he
        exact epsOfShow_showId e he
      have hFe : F e = e := hfresh p (by simp) e hec hsid
      exact List.mem_append.mpr (Or.inl (List.mem_map.mpr ⟨e, hec, hFe⟩))
    rw [extract_missing_eq, updFold_spec _ hg p.2 _ hnd hlnd hlin]
    have hNEWnot : ∀ x ∈ NEW, x ∉ p.2 := by
      intro x hx hxl
      have hxc : x ∈ c.episodes := hlsub.subset hxl
      have h1 : x.id ∈ (c.episodes.map F).map (fun e => e.id) := by
        rw [List.map_map]
        exact List.mem_map.mpr ⟨x, hxc, by simp [hFid]⟩
      have h2 : x.id ∈ NEW.map (fun e => e.id) := List.mem_map_of_mem _ hx
      rw [List.map_append] at hnd
      exact (List.nodup_append.mp hnd).2.2 h1 h2
    have hsplit : ((c.episodes.map F ++ NEW).map
        fun x => if x ∈ p.2 then (if truthy x.videoUrl then x else updVal site x)
          else x) =
        c.episodes.map (fun e =>
          if e.showId = p.1 then (if truthy e.videoUrl then e else updVal site e)
          else F e) ++ NEW := by
      rw [List.map_append, List.map_map]
      congr 1
      · apply List.map_congr_left
        intro e hec
        simp only [Function.comp_apply]
        by_cases hsid : e.showId = p.1
        · have hFe : F e = e := hfresh p (by simp) e hec hsid
          rw [hFe, if_pos (by rw [hp]; exact mem_epsOfShow hec hsid), if_pos hsid]
        · have hnotin : F e ∉ p.2 := by
            intro hin
            have hFc : F e ∈ c.episodes := hlsub.subset hin
            have : F e = e := ep_eq_of_mem_of_id_eq hW2 hFc hec (hFid e)
            rw [this] at hin
            rw [hp] at hin
            exact hsid (epsOfShow_showId e hin)
          rw [if_neg hnotin, if_neg hsid]
      · have : ∀ x ∈ NEW, (if x ∈ p.2 then
            (if truthy x.videoUrl then x else updVal site x) else x) = x := by
          intro x hx
          rw [if_neg (hNEWnot x hx)]
        rw [List.map_congr_left this, List.map_id']
    rw [hsplit]
    have hF'id : ∀ e, ((fun e =>
        if e.showId = p.1 then (if truthy e.videoUrl then e else updVal site e)
        else F e) e).id = e.id := by
      intro e
      by_cases h1 : e.showId = p.1
      · by_cases h2 : truthy e.videoUrl <;> simp [h1, h2, updVal]
      · simp [h1, hFid]
    have hidsEq : ((c.episodes.map (fun e =>
        if e.showId = p.1 then (if truthy e.videoUrl then e else updVal site e)
        else F e)).map (fun e => e.id)) = (c.episodes.map F).map (fun e => e.id) := by
      rw [List.map_map, List.map_map]
      apply List.map_congr_left
      intro e _
      simp only [Function.comp_apply, hF'id e, hFid e]
    rw [ih _ NEW hF'id (fun q hq => htask q (by simp [hq])) hsn.2
      (fun q hq e hec hsid => by
        have hqne : e.showId ≠ p.1 := by
          rw [hsid]
          intro hh
          exact hsn.1 (by rw [← hh]; exact List.mem_map_of_mem _ hq)
        rw [if_neg hqne]
        exact hfresh q (by simp [hq]) e hec hsid)
      (by rw [List.map_append, hidsEq, ← List.map_append]; exact hnd)]
    congr 1
    apply List.map_congr_left
    intro e hec
    by_cases hsid : e.showId = p.1
    · have hnr : e.showId ∉ rest.map (fun q => q.1) := by
        rw [hsid]
        exact hsn.1
      rw [if_neg (by intro hc; exact hnr hc.1)]
      rw [if_pos hsid]
      by_cases hm : truthy e.videoUrl = true
      · rw [if_pos hm, if_neg (by intro hc; exact hc.2 hm)]
        exact (hfresh p (by simp) e hec hsid).symm
      · rw [if_neg hm,
          if_pos ⟨List.mem_cons.mpr (Or.inl hsid), hm⟩]
    · rw [if_neg hsid]
      by_cases hc : e.showId ∈ rest.map (fun q => q.1) ∧ ¬ truthy e.videoUrl = true
      · rw [if_pos hc, if_pos ⟨List.mem_cons.mpr (Or.inr hc.1), hc.2⟩]
      · rw [if_neg hc, if_neg (by
          intro hc2
          exact hc ⟨(List.mem_cons.mp hc2.1).resolve_left hsid, hc2.2⟩)]

theorem run_complete_scrape_eq (site : Site) (c : Checkpoint) :
    run_complete_scrape site c =
      { shows := (scrapeTaskList c).foldl
          (fun sh s => replaceFirstShow sh s.id (scrape_show_details site s).1)
          c.shows,
        episodes := (analyze_checkpoint_status c).seriesWithMissingUrls.foldl
          (fun eps t =>
            (extract_missing_urls_for_show site t.2).foldl replaceFirstEp eps)
          ((scrapeTaskList c).foldl
            (fun e s => upsertEpisodes e (scrape_show_details site s).2)
            c.episodes),
        phase := "complete" } := by
  unfold run_complete_scrape scrapeTaskList
  simp only [scrapeFold_fst, scrapeFold_snd]

theorem mem_moviesMissingUrls (c : Checkpoint) (m : ShowRecord) :
    m ∈ (analyze_checkpoint_status c).moviesMissingUrls ↔
      m ∈ c.shows ∧ m.type = "movie" ∧ ¬ truthy m.videoUrl = true := by
  simp [analyze_checkpoint_status, List.mem_filter, and_assoc]
  tauto

theorem mem_seriesWithoutEpisodes (c : Checkpoint) (s : ShowRecord) :
    s ∈ (analyze_checkpoint_status c).seriesWithoutEpisodes ↔
      s ∈ c.shows ∧ s.type = "series" ∧ epsOfShow c.episodes s.id = [] := by
  simp [analyze_checkpoint_status, List.mem_filter, and_assoc]
  tauto

theorem mem_seriesWithMissingUrls (c : Checkpoint) (p : String × List EpisodeRecord) :
    p ∈ (analyze_checkpoint_status c).seriesWithMissingUrls ↔
      ∃ s, s ∈ c.shows ∧ s.type = "series" ∧
        p = (s.id, epsOfShow c.episodes s.id) ∧
        epsOfShow c.episodes s.id ≠ [] ∧
        ∃ e ∈ epsOfShow c.episodes s.id, ¬ truthy e.videoUrl = true := by
  simp only [analyze_checkpoint_status, List.mem_map, List.mem_filter,
    Bool.and_eq_true, Bool.not_eq_true', beq_eq_false_iff_ne, ne_eq,
    List.any_eq_true, Bool.not_eq_true]
  constructor
  · rintro ⟨s, ⟨⟨hs, hty⟩, hne, e, he, hev⟩, hp⟩
    exact ⟨s, hs, by simpa using hty, hp.symm, hne, e, he, by simp [hev]⟩
  · rintro ⟨s, hs, hty, hp, hne, e, he, hev⟩
    exact ⟨s, ⟨⟨hs, by simpa using hty⟩, hne, e, he, by simpa using hev⟩, hp.symm⟩

theorem scrapeTaskList_conds (c : Checkpoint) :
    ∀ t ∈ scrapeTaskList c, t ∈ c.shows ∧
      (t.type = "movie" ∨ (t.type = "series" ∧ epsOfShow c.episodes t.id = [])) := by
  intro t ht
  rcases List.mem_append.mp ht with h | h
  · obtain ⟨h1, h2, _⟩ := (mem_moviesMissingUrls c t).mp h
    exact ⟨h1, Or.inl h2⟩
  · obtain ⟨h1, h2, h3⟩ := (mem_seriesWithoutEpisodes c t).mp h
    exact ⟨h1, Or.inr ⟨h2, h3⟩⟩

theorem moviesMissingUrls_sublist (c : Checkpoint) :
    ((analyze_checkpoint_status c).moviesMissingUrls).Sublist c.shows := by
  unfold analyze_checkpoint_status
  exact (List.filter_sublist _).trans (List.filter_sublist _)

theorem seriesWithoutEpisodes_sublist (c : Checkpoint) :
    ((analyze_checkpoint_status c).seriesWithoutEpisodes).Sublist c.shows := by
  unfold analyze_checkpoint_status
  exact (List.filter_sublist _).trans (List.filter_sublist _)

theorem scrapeTaskList_nodup (c : Checkpoint)
    (hW1 : (c.shows.map (fun s => s.id)).Nodup) :
    ((scrapeTaskList c).map (fun s => s.id)).Nodup := by
  unfold scrapeTaskList
  rw [List.map_append, List.nodup_append]
  refine ⟨((moviesMissingUrls_sublist c).map _).nodup hW1,
    ((seriesWithoutEpisodes_sublist c).map _).nodup hW1, ?_⟩
  intro x hxm hxs
  obtain ⟨m, hm, hmid⟩ := List.mem_map.mp hxm
  obtain ⟨s, hs, hsid⟩ := List.mem_map.mp hxs
  obtain ⟨hm1, hm2, -⟩ := (mem_moviesMissingUrls c m).mp hm
  obtain ⟨hs1, hs2, -⟩ := (mem_seriesWithoutEpisodes c s).mp hs
  have : m = s := show_eq_of_mem_of_id_eq hW1 hm1 hs1 (by rw [hmid, hsid])
  rw [this, hs2] at hm2
  simp at hm2

/-- Case analysis for a show record of the checkpoint produced by one run:
it descends from an original show with the same id, type and URL, and is
either that original record untouched (when no task carried its id) or the
scrape of the original record. -/
theorem c1_shows_cases (site : Site) (c : Checkpoint)
    (hW1 : (c.shows.map (fun s => s.id)).Nodup) :
    ∀ b ∈ (run_complete_scrape site c).shows, ∃ a, a ∈ c.shows ∧
      b.id = a.id ∧ b.type = a.type ∧ b.url = a.url ∧
      ((b = a ∧ ∀ t ∈ scrapeTaskList c, t.id ≠ a.id) ∨
        b = (scrape_show_details site a).1) := by
  intro b hb
  rw [run_complete_scrape_eq] at hb
  simp only at hb
  rw [showsFold_spec site _ c.shows hW1 (scrapeTaskList_nodup c hW1)] at hb
  obtain ⟨a, ha, hba⟩ := List.mem_map.mp hb
  rcases hfind : List.find? (fun t => t.id == a.id) (scrapeTaskList c) with _ | t
  · rw [hfind] at hba
    refine ⟨a, ha, by rw [← hba], by rw [← hba], by rw [← hba], Or.inl ⟨hba.symm, ?_⟩⟩
    intro t ht
    have := List.find?_eq_none.mp hfind t ht
    simpa using this
  · rw [hfind] at hba
    have htt : t ∈ scrapeTaskList c := List.mem_of_find?_eq_some hfind
    have htid : t.id = a.id := by simpa using List.find?_some hfind
    have htc : t ∈ c.shows := (scrapeTaskList_conds c t htt).1
    have hta : t = a := show_eq_of_mem_of_id_eq hW1 htc ha htid
    rw [hta] at hba
    refine ⟨a, ha, ?_, ?_, ?_, Or.inr hba.symm⟩
    · rw [← hba, (scrape_core site a).1]
    · rw [← hba, (scrape_core site a).2.1]
    · rw [← hba, (scrape_core site a).2.2.1]

theorem c1_shows_ids (site : Site) (c : Checkpoint)
    (hW1 : (c.shows.map (fun s => s.id)).Nodup) :
    ((run_complete_scrape site c).shows).map (fun s => s.id) =
      c.shows.map (fun s => s.id) := by
  rw [run_complete_scrape_eq]
  simp only
  rw [showsFold_spec site _ c.shows hW1 (scrapeTaskList_nodup c hW1), List.map_map]
  apply List.map_congr_left
  intro a _
  simp only [Function.comp_apply]
  rcases hfind : List.find? (fun t => t.id == a.id) (scrapeTaskList c) with _ | t
  · rw [hfind]
  · rw [hfind]
    have htid : t.id = a.id := by simpa using List.find?_some hfind
    rw [(scrape_core site t).1, htid]

theorem seriesWithMissingUrls_sublist (c : Checkpoint) :
    ∃ L : List ShowRecord, L.Sublist c.shows ∧
      (analyze_checkpoint_status c).seriesWithMissingUrls =
        L.map (fun s => (s.id, epsOfShow c.episodes s.id)) := by
  refine ⟨_, ?_, rfl⟩
  exact (List.filter_sublist _).trans (List.filter_sublist _)

theorem seriesWithMissingUrls_sids_nodup (c : Checkpoint)
    (hW1 : (c.shows.map (fun s => s.id)).Nodup) :
    (((analyze_checkpoint_status c).seriesWithMissingUrls).map
      (fun p => p.1)).Nodup := by
  obtain ⟨L, hL, heq⟩ := seriesWithMissingUrls_sublist c
  rw [heq, List.map_map]
  exact (hL.map (fun s => s.id)).nodup hW1

theorem epsOfShow_eq_nil_iff (eps : List EpisodeRecord) (sid : String) :
    epsOfShow eps sid = [] ↔ ∀ e ∈ eps, e.showId ≠ sid := by
  unfold epsOfShow
  rw [List.filter_eq_nil_iff]
  simp

theorem sid_mem_seriesWithMissingUrls (c : Checkpoint) (s : ShowRecord)
    (hs : s ∈ c.shows) (hty : s.type = "series")
    (hne : epsOfShow c.episodes s.id ≠ [])
    (hmiss : ∃ e ∈ epsOfShow c.episodes s.id, ¬ truthy e.videoUrl = true) :
    s.id ∈ ((analyze_checkpoint_status c).seriesWithMissingUrls).map
      (fun p => p.1) :=
  List.mem_map.mpr ⟨(s.id, epsOfShow c.episodes s.id),
    (mem_seriesWithMissingUrls c _).mpr ⟨s, hs, hty, rfl, hne, hmiss⟩, rfl⟩

theorem updVal_eq_self (site : Site) (e : EpisodeRecord)
    (h : e.videoUrl = some (extract_video_url site "series" e.url)) :
    updVal site e = e := by
  cases e with
  | mk i sh n sl u th v =>
    unfold updVal
    rw [show v = some (extract_video_url site "series" u) from h]

/-- After one run, the episode list is the original list with the covered
missing video URLs filled in by the site extraction, followed by the newly
built episodes of previously episode-less series. -/
theorem c1_episodes_spec (site : Site) (c : Checkpoint)
    (hW1 : (c.shows.map (fun s => s.id)).Nodup)
    (hW2 : (c.episodes.map (fun e => e.id)).Nodup)
    (hW3 : ∀ e ∈ c.episodes, ∀ s ∈ c.shows, (∃ i, e.id = epId s.id i) →
      e.showId = s.id)
    (hW4 : ∀ s ∈ c.shows, ∀ t ∈ c.shows, (∃ i j, epId s.id i = epId t.id j) →
      s.id = t.id) :
    ∃ NEW,
      (run_complete_scrape site c).episodes =
        c.episodes.map (fun e =>
          if e.showId ∈ ((analyze_checkpoint_status c).seriesWithMissingUrls).map
                (fun p => p.1) ∧ ¬ truthy e.videoUrl = true then
            updVal site e
          else e) ++ NEW ∧
      (∀ x ∈ NEW, BuiltEp site c x) ∧
      ((c.episodes ++ NEW).map (fun e => e.id)).Nodup ∧
      (∀ t ∈ scrapeTaskList c, (scrape_show_details site t).2 ≠ [] →
        ∃ x ∈ NEW, x.showId = t.id) := by
  obtain ⟨extra, heq, hbuilt, hnd, hcov⟩ := epsFold_spec site c hW3 hW4
    (scrapeTaskList c) [] (scrapeTaskList_conds c) (scrapeTaskList_nodup c hW1)
    (by simp) (by simp) (by simpa using hW2)
  rw [List.append_nil] at heq hnd
  refine ⟨extra, ?_, hbuilt, hnd, hcov⟩
  rw [run_complete_scrape_eq]
  simp only
  rw [heq]
  have hmain := extractFold_spec site c hW2
    ((analyze_checkpoint_status c).seriesWithMissingUrls) (fun e => e) extra
    (fun e => rfl)
    (fun p hp => by
      obtain ⟨s, hs, hty, hpeq, -, -⟩ := (mem_seriesWithMissingUrls c p).mp hp
      rw [hpeq])
    (seriesWithMissingUrls_sids_nodup c hW1)
    (fun p hp e he hsid => rfl)
    (by rw [List.map_id']; exact hnd)
  rw [List.map_id'] at hmain
  rw [hmain]

/-- Every episode of the produced checkpoint that still has a falsy video
URL and belongs to a series of the original checkpoint carries exactly the
site-determined extraction value (which is then the empty string). -/
theorem c1_missing_video_fixed (site : Site) (c : Checkpoint)
    (hW1 : (c.shows.map (fun s => s.id)).Nodup)
    (hW2 : (c.episodes.map (fun e => e.id)).Nodup)
    (hW3 : ∀ e ∈ c.episodes, ∀ s ∈ c.shows, (∃ i, e.id = epId s.id i) →
      e.showId = s.id)
    (hW4 : ∀ s ∈ c.shows, ∀ t ∈ c.shows, (∃ i j, epId s.id i = epId t.id j) →
      s.id = t.id) :
    ∀ y ∈ (run_complete_scrape site c).episodes,
      ¬ truthy y.videoUrl = true →
      (∃ s, s ∈ c.shows ∧ s.type = "series" ∧ y.showId = s.id) →
      y.videoUrl = some (extract_video_url site "series" y.url) := by
  obtain ⟨NEW, heq, hbuilt, hnd, -⟩ := c1_episodes_spec site c hW1 hW2 hW3 hW4
  intro y hy hmiss hser
  obtain ⟨s, hs, hty, hsid⟩ := hser
  rw [heq] at hy
  rcases List.mem_append.mp hy with hy1 | hy2
  · obtain ⟨e, hec, hye⟩ := List.mem_map.mp hy1
    by_cases hcond : e.showId ∈
        ((analyze_checkpoint_status c).seriesWithMissingUrls).map (fun p => p.1) ∧
        ¬ truthy e.videoUrl = true
    · rw [if_pos hcond] at hye
      rw [← hye]
      rfl
    · rw [if_neg hcond] at hye
      subst hye
      have hin : e ∈ epsOfShow c.episodes s.id := mem_epsOfShow hec hsid
      have hsmem : s.id ∈
          ((analyze_checkpoint_status c).seriesWithMissingUrls).map (fun p => p.1) :=
        sid_mem_seriesWithMissingUrls c s hs hty
          (by intro h0; rw [h0] at hin; simp at hin) ⟨e, hin, hmiss⟩
      exact absurd ⟨by rw [hsid]; exact hsmem, hmiss⟩ hcond
  · exact (hbuilt y hy2).2

theorem c1_eps_nodup (site : Site) (c : Checkpoint)
    (hW1 : (c.shows.map (fun s => s.id)).Nodup)
    (hW2 : (c.episodes.map (fun e => e.id)).Nodup)
    (hW3 : ∀ e ∈ c.episodes, ∀ s ∈ c.shows, (∃ i, e.id = epId s.id i) →
      e.showId = s.id)
    (hW4 : ∀ s ∈ c.shows, ∀ t ∈ c.shows, (∃ i j, epId s.id i = epId t.id j) →
      s.id = t.id) :
    (((run_complete_scrape site c).episodes).map (fun e => e.id)).Nodup := by
  obtain ⟨NEW, heq, -, hnd, -⟩ := c1_episodes_spec site c hW1 hW2 hW3 hW4
  rw [heq, List.map_append]
  rw [List.map_append] at hnd
  have hids : ((c.episodes.map (fun e =>
      if e.showId ∈ ((analyze_checkpoint_status c).seriesWithMissingUrls).map
            (fun p => p.1) ∧ ¬ truthy e.videoUrl = true then
        updVal site e
      else e)).map (fun e => e.id)) = c.episodes.map (fun e => e.id) := by
    rw [List.map_map]
    apply List.map_congr_left
    intro e _
    simp only [Function.comp_apply]
    by_cases hcond : e.showId ∈
        ((analyze_checkpoint_status c).seriesWithMissingUrls).map (fun p => p.1) ∧
        ¬ truthy e.videoUrl = true
    · rw [if_pos hcond]
      rfl
    · rw [if_neg hcond]
  rw [hids]
  exact hnd

/-- A series of the produced checkpoint with no recorded episodes is a
scrape fixed point: re-scraping it reproduces its record and yields no
episodes. -/
theorem c1_series_noeps_fixed (site : Site) (c : Checkpoint)
    (hW1 : (c.shows.map (fun s => s.id)).Nodup)
    (hW2 : (c.episodes.map (fun e => e.id)).Nodup)
    (hW3 : ∀ e ∈ c.episodes, ∀ s ∈ c.shows, (∃ i, e.id = epId s.id i) →
      e.showId = s.id)
    (hW4 : ∀ s ∈ c.shows, ∀ t ∈ c.shows, (∃ i j, epId s.id i = epId t.id j) →
      s.id = t.id) :
    ∀ b ∈ (run_complete_scrape site c).shows, b.type = "series" →
      epsOfShow (run_complete_scrape site c).episodes b.id = [] →
      (scrape_show_details site b).1 = b ∧ (scrape_show_details site b).2 = [] := by
  obtain ⟨NEW, heq, hbuilt, hnd, hcov⟩ := c1_episodes_spec site c hW1 hW2 hW3 hW4
  intro b hb hty hnil
  rw [epsOfShow_eq_nil_iff] at hnil
  have hK4a : epsOfShow c.episodes b.id = [] ∧ ∀ x ∈ NEW, x.showId ≠ b.id := by
    constructor
    · rw [epsOfShow_eq_nil_iff]
      intro e hec
      have hmem : (if e.showId ∈
          ((analyze_checkpoint_status c).seriesWithMissingUrls).map (fun p => p.1) ∧
          ¬ truthy e.videoUrl = true then updVal site e else e) ∈
            (run_complete_scrape site c).episodes := by
        rw [heq]
        exact List.mem_append_left _ (List.mem_map_of_mem _ hec)
      have h2 := hnil _ hmem
      by_cases hcond : e.showId ∈
          ((analyze_checkpoint_status c).seriesWithMissingUrls).map (fun p => p.1) ∧
          ¬ truthy e.videoUrl = true
      · rw [if_pos hcond] at h2
        exact h2
      · rw [if_neg hcond] at h2
        exact h2
    · intro x hx
      exact hnil x (by rw [heq]; exact List.mem_append_right _ hx)
  obtain ⟨a, ha, hid, htyp, hurl, hcase⟩ := c1_shows_cases site c hW1 b hb
  have hanil : epsOfShow c.episodes a.id = [] := by
    rw [← hid]
    exact hK4a.1
  have hatyp : a.type = "series" := by rw [← htyp]; exact hty
  have hatask : a ∈ scrapeTaskList c :=
    List.mem_append.mpr (Or.inr ((mem_seriesWithoutEpisodes c a).mpr ⟨ha, hatyp, hanil⟩))
  have hbscr : b = (scrape_show_details site a).1 := by
    rcases hcase with ⟨hba, hnone⟩ | h2
    · exact absurd rfl (hnone a hatask)
    · exact h2
  refine ⟨by rw [hbscr, scrape_idem_fst], ?_⟩
  rw [scrape_snd_of_core_eq site a b hid htyp hurl]
  by_contra hne
  obtain ⟨x, hx, hxs⟩ := hcov a hatask hne
  exact hK4a.2 x hx (by rw [hxs, hid])

/-- A movie of the produced checkpoint still missing its video URL is a
scrape fixed point. -/
theorem c1_movie_missing_fixed (site : Site) (c : Checkpoint)
    (hW1 : (c.shows.map (fun s => s.id)).Nodup) :
    ∀ b ∈ (run_complete_scrape site c).shows, b.type = "movie" →
      ¬ truthy b.videoUrl = true →
      (scrape_show_details site b).1 = b ∧ (scrape_show_details site b).2 = [] := by
  intro b hb hty hmiss
  obtain ⟨a, ha, hid, htyp, hurl, hcase⟩ := c1_shows_cases site c hW1 b hb
  have hbscr : b = (scrape_show_details site a).1 := by
    rcases hcase with ⟨hba, hnone⟩ | h2
    · have hatask : a ∈ scrapeTaskList c :=
        List.mem_append.mpr (Or.inl ((mem_moviesMissingUrls c a).mpr
          ⟨ha, by rw [← hba]; exact hty, by rw [← hba]; exact hmiss⟩))
      exact absurd rfl (hnone a hatask)
    · exact h2
  exact ⟨by rw [hbscr, scrape_idem_fst], scrape_movie_eps site b hty⟩

/-- Every URL-extraction task of the second run is an identity: the
episodes it would update already carry the extraction value. -/
theorem c1_extract_tasks_fixed (site : Site) (c : Checkpoint)
    (hW1 : (c.shows.map (fun s => s.id)).Nodup)
    (hW2 : (c.episodes.map (fun e => e.id)).Nodup)
    (hW3 : ∀ e ∈ c.episodes, ∀ s ∈ c.shows, (∃ i, e.id = epId s.id i) →
      e.showId = s.id)
    (hW4 : ∀ s ∈ c.shows, ∀ t ∈ c.shows, (∃ i j, epId s.id i = epId t.id j) →
      s.id = t.id) :
    ∀ p ∈ (analyze_checkpoint_status
        (run_complete_scrape site c)).seriesWithMissingUrls,
      extract_missing_urls_for_show site p.2 = p.2 ∧
        ∀ e ∈ p.2, e ∈ (run_complete_scrape site c).episodes := by
  intro p hp
  obtain ⟨s, hs, hty, hpeq, hne, hmiss⟩ := (mem_seriesWithMissingUrls _ p).mp hp
  rw [hpeq]
  simp only
  constructor
  · rw [extract_missing_eq]
    have hfix : ∀ e ∈ epsOfShow (run_complete_scrape site c).episodes s.id,
        (if truthy e.videoUrl then e else updVal site e) = e := by
      intro e he
      by_cases hm : truthy e.videoUrl
      · rw [if_pos hm]
      · rw [if_neg hm]
        obtain ⟨a, ha, hid2, htyp2, -, -⟩ := c1_shows_cases site c hW1 s hs
        have hfv := c1_missing_video_fixed site c hW1 hW2 hW3 hW4 e
          ((epsOfShow_sublist _ _).subset he) (by simpa using hm)
          ⟨a, ha, by rw [← htyp2]; exact hty,
            by rw [epsOfShow_showId e he, hid2]⟩
        exact updVal_eq_self site e hfv
    rw [List.map_congr_left hfix, List.map_id']
  · intro e he
    exact (epsOfShow_sublist _ _).subset he

/-! ### The second run changes nothing -/

theorem foldReplaceSelf_shows (site : Site) (tasks : List ShowRecord) :
    ∀ shows : List ShowRecord,
      (shows.map (fun s => s.id)).Nodup →
      (∀ t ∈ tasks, t ∈ shows ∧ (scrape_show_details site t).1 = t) →
      tasks.foldl (fun sh s => replaceFirstShow sh s.id (scrape_show_details site s).1)
        shows = shows := by
  induction tasks with
  | nil => intro shows _ _; rfl
  | cons t rest ih =>
    intro shows hnd hfix
    rw [List.foldl_cons, (hfix t (by simp)).2,
      replaceFirstShow_self shows t hnd (hfix t (by simp)).1]
    exact ih shows hnd (fun u hu => hfix u (by simp [hu]))

theorem foldUpsertNil (site : Site) (tasks : List ShowRecord) :
    ∀ eps : List EpisodeRecord,
      (∀ t ∈ tasks, (scrape_show_details site t).2 = []) →
      tasks.foldl (fun e s => upsertEpisodes e (scrape_show_details site s).2) eps =
        eps := by
  induction tasks with
  | nil => intro eps _; rfl
  | cons t rest ih =>
    intro eps hfix
    rw [List.foldl_cons, hfix t (by simp),
      show upsertEpisodes eps [] = eps from rfl]
    exact ih eps (fun u hu => hfix u (by simp [hu]))

theorem foldReplaceMembers (l : List EpisodeRecord) :
    ∀ eps : List EpisodeRecord,
      (eps.map (fun e => e.id)).Nodup →
      (∀ e ∈ l, e ∈ eps) →
      l.foldl replaceFirstEp eps = eps := by
  induction l with
  | nil => intro eps _ _; rfl
  | cons e rest ih =>
    intro eps hnd hmem
    rw [List.foldl_cons, replaceFirstEp_self eps e hnd (hmem e (by simp))]
    exact ih eps hnd (fun u hu => hmem u (by simp [hu]))

theorem foldExtractId (site : Site)
    (xt : List (String × List EpisodeRecord)) :
    ∀ eps : List EpisodeRecord,
      (eps.map (fun e => e.id)).Nodup →
      (∀ p ∈ xt, extract_missing_urls_for_show site p.2 = p.2 ∧
        ∀ e ∈ p.2, e ∈ eps) →
      xt.foldl (fun eps t =>
        (extract_missing_urls_for_show site t.2).foldl replaceFirstEp eps) eps =
        eps := by
  induction xt with
  | nil => intro eps _ _; rfl
  | cons p rest ih =>
    intro eps hnd hfix
    rw [List.foldl_cons, (hfix p (by simp)).1,
      foldReplaceMembers p.2 eps hnd (hfix p (by simp)).2]
    exact ih eps hnd (fun q hq => hfix q (by simp [hq]))

/-- **C5.** Against a fixed (unchanged) source of pages, a second full
harvest starting from the checkpoint produced by the first run reproduces
that checkpoint exactly — the same show and episode identifiers with the
same field values, and no duplicate episodes — for every well-formed
starting checkpoint: pairwise-distinct show ids, pairwise-distinct episode
ids, and episode ids consistent with the `f"{show_id}_ep{idx}"` scheme
(an episode whose id matches a show's scheme belongs to that show, and the
schemes of shows with different ids never collide). -/
theorem run_complete_scrape_idempotent (site : Site) (c : Checkpoint)
    (hW1 : (c.shows.map (fun s => s.id)).Nodup)
    (hW2 : (c.episodes.map (fun e => e.id)).Nodup)
    (hW3 : ∀ e ∈ c.episodes, ∀ s ∈ c.shows, (∃ i, e.id = epId s.id i) →
      e.showId = s.id)
    (hW4 : ∀ s ∈ c.shows, ∀ t ∈ c.shows, (∃ i j, epId s.id i = epId t.id j) →
      s.id = t.id) :
    run_complete_scrape site (run_complete_scrape site c) =
      run_complete_scrape site c := by
  have hids1 : (((run_complete_scrape site c).shows).map (fun s => s.id)).Nodup := by
    rw [c1_shows_ids site c hW1]
    exact hW1
  have hnde := c1_eps_nodup site c hW1 hW2 hW3 hW4
  have htasks2 : ∀ t ∈ scrapeTaskList (run_complete_scrape site c),
      t ∈ (run_complete_scrape site c).shows ∧
      (scrape_show_details site t).1 = t ∧ (scrape_show_details site t).2 = [] := by
    intro t ht
    rcases List.mem_append.mp ht with h | h
    · obtain ⟨h1, h2, h3⟩ := (mem_moviesMissingUrls _ t).mp h
      obtain ⟨f1, f2⟩ := c1_movie_missing_fixed site c hW1 t h1 h2 h3
      exact ⟨h1, f1, f2⟩
    · obtain ⟨h1, h2, h3⟩ := (mem_seriesWithoutEpisodes _ t).mp h
      obtain ⟨f1, f2⟩ := c1_series_noeps_fixed site c hW1 hW2 hW3 hW4 t h1 h2 h3
      exact ⟨h1, f1, f2⟩
  rw [run_complete_scrape_eq site (run_complete_scrape site c)]
  rw [foldReplaceSelf_shows site _ _ hids1
    (fun t ht => ⟨(htasks2 t ht).1, (htasks2 t ht).2.1⟩)]
  rw [foldUpsertNil site _ _ (fun t ht => (htasks2 t ht).2.2)]
  rw [foldExtractId site _ _ hnde (c1_extract_tasks_fixed site c hW1 hW2 hW3 hW4)]
  have hph : (run_complete_scrape site c).phase = "complete" := by
    rw [run_complete_scrape_eq]
  rw [← hph]

example : ((run_complete_scrape c5WitSite c5WitCheckpoint).episodes.map
    (fun e => (e.id, e.videoUrl))) =
      [("sh1_ep1", some "https://media.negahestan.com/sh1-e1.mp4")] := by rfl

/-- Closed witness for the C5 idempotence theorem at a concrete site and
checkpoint. -/
theorem run_complete_scrape_idempotent_witness :
    run_complete_scrape c5WitSite (run_complete_scrape c5WitSite c5WitCheckpoint) =
      run_complete_scrape c5WitSite c5WitCheckpoint :=
  run_complete_scrape_idempotent c5WitSite c5WitCheckpoint (by decide) (by decide)
    (by simp [c5WitCheckpoint])
    (by
      intro s hs t ht _
      rw [show c5WitCheckpoint.shows =
        [{ id := "sh1", type := "series", url := "/series/sh1" }] from rfl] at hs ht
      rw [List.mem_singleton] at hs ht
      rw [hs, ht])

/-- Closed witness for the amended C6 statement at concrete inputs. -/
theorem numeric_field_edge_policy_witness :
    (imvbox_year "Drama 2022 | 90 min" = none ∨
      ∃ y, imvbox_year "Drama 2022 | 90 min" = some y ∧ 1900 ≤ y ∧ y ≤ 2099) ∧
    (∃ ed, extract_episode_data c6ExItem c6ExSeasons = some ed ∧
      ed.episodeNumber = c6ExLastSeason.episodes.length + 1) :=
  ⟨numeric_field_edge_policy.1 "Drama 2022 | 90 min",
   numeric_field_edge_policy.2 c6ExItem c6ExSeasons c6ExLastSeason (by decide)
     (by decide) (by decide)⟩
